import Mathlib

/-!
Verification development for the gerac type inference engine.

The definitions below are a shallow embedding of the Rust sources:
* `Gerac.Ty`, `Gerac.TypeScope` and the merge machinery embed
  `src/compiler/src/frontend/types.rs` (the compiler variant of the
  type-group arena and `try_merge_groups`).
* `Gerac.SrcVariant` embeds `src/src/compiler/types.rs` (the older
  variant with `PossibleTypes` and `types_limited`).
* `Gerac.Check` embeds parts of
  `src/compiler/src/frontend/type_checking.rs`
  (`initalize_variables`, `type_check_symbol`, `display_types`).

Rust `HashMap`/`HashSet` values are embedded as association lists and
duplicate-free lists; since Rust hash iteration order is unspecified, a
fixed deterministic order is chosen.  Mutation of `&mut self` is
embedded by threading the state explicitly.  General recursion bounded
by cycle detection in the source is embedded with an explicit fuel
parameter that strictly decreases on every recursive call; for
sufficiently large fuel the embedding computes exactly what the source
computes.
-/

namespace Gerac

/-- Interned string index (`StringIdx` in `util/strings.rs`). -/
abbrev StringIdx := Nat

/-- `Type` from `src/compiler/src/frontend/types.rs`: the constructor
families a possibility set may contain.  Structural families hold the
index of their record in the owning scope's side table
(`ArrayType(usize)`, `ObjectType(usize)`, ...). -/
inductive Ty where
  | any
  | unit
  | boolean
  | integer
  | float
  | string
  | array (idx : Nat)
  | object (idx : Nat)
  | concreteObject (idx : Nat)
  | closure (idx : Nat)
  | variants (idx : Nat)
deriving DecidableEq, Repr

/-- Discriminant of a `Ty` value, embedding `std::mem::discriminant`. -/
def Ty.discrim : Ty → Nat
  | .any => 0
  | .unit => 1
  | .boolean => 2
  | .integer => 3
  | .float => 4
  | .string => 5
  | .array _ => 6
  | .object _ => 7
  | .concreteObject _ => 8
  | .closure _ => 9
  | .variants _ => 10

/-- Lookup in an association list embedding a Rust `HashMap` keyed by
interned strings or indices. -/
def alookup {α : Type} : List (Nat × α) → Nat → Option α
  | [], _ => none
  | (k, v) :: rest, n => if k = n then some v else alookup rest n

/-- Insert into a list embedding a Rust `HashSet`: a no-op when the
element is already present, otherwise appended. -/
def insertUniq {α : Type} [DecidableEq α] (x : α) (l : List α) : List α :=
  if x ∈ l then l else l ++ [x]

/-- `TypeScope` from `src/compiler/src/frontend/types.rs`: `groups`
maps a group handle to its internal index, `groupTypes` holds each
internal index's possibility set, and the remaining fields are the side
tables for structural constructors.  The runtime scope id used only for
cross-scope panics is dropped: all claims concern a single scope. -/
structure TypeScope where
  groups : List Nat
  groupTypes : List (List Ty)
  arrays : List Nat
  objects : List (List (StringIdx × Nat) × Bool)
  concreteObjects : List (List (StringIdx × Nat))
  closures : List (List Nat × Nat × Option (List (StringIdx × Nat)))
  variants : List (List (StringIdx × Nat) × Bool)
deriving DecidableEq, Repr

/-- `TypeScope::insert_group`. -/
def TypeScope.insertGroup (s : TypeScope) (types : List Ty) :
    TypeScope × Nat :=
  let internalIdx := s.groupTypes.length
  let groupIdx := s.groups.length
  ({ s with
      groupTypes := s.groupTypes ++ [types],
      groups := s.groups ++ [internalIdx] }, groupIdx)

/-- `TypeScope::group_internal_id`. -/
def TypeScope.groupInternalId (s : TypeScope) (g : Nat) : Nat :=
  s.groups.getD g 0

/-- `TypeScope::group`: the possibility set a handle currently reads. -/
def TypeScope.group (s : TypeScope) (g : Nat) : List Ty :=
  s.groupTypes.getD (s.groupInternalId g) []

/-- `TypeScope::set_group_types`. -/
def TypeScope.setGroupTypes (s : TypeScope) (g : Nat) (ts : List Ty) :
    TypeScope :=
  { s with groupTypes := s.groupTypes.set (s.groupInternalId g) ts }

/-- `TypeScope::insert_array`. -/
def TypeScope.insertArray (s : TypeScope) (elementType : Nat) :
    TypeScope × Nat :=
  ({ s with arrays := s.arrays ++ [elementType] }, s.arrays.length)

/-- `TypeScope::array`. -/
def TypeScope.array (s : TypeScope) (i : Nat) : Nat :=
  s.arrays.getD i 0

/-- `TypeScope::insert_object`. -/
def TypeScope.insertObject (s : TypeScope)
    (members : List (StringIdx × Nat)) (fixed : Bool) : TypeScope × Nat :=
  ({ s with objects := s.objects ++ [(members, fixed)] }, s.objects.length)

/-- `TypeScope::object`. -/
def TypeScope.object (s : TypeScope) (i : Nat) :
    List (StringIdx × Nat) × Bool :=
  s.objects.getD i ([], false)

/-- `TypeScope::insert_concrete_object`. -/
def TypeScope.insertConcreteObject (s : TypeScope)
    (members : List (StringIdx × Nat)) : TypeScope × Nat :=
  ({ s with concreteObjects := s.concreteObjects ++ [members] },
    s.concreteObjects.length)

/-- `TypeScope::concrete_object`. -/
def TypeScope.concreteObject (s : TypeScope) (i : Nat) :
    List (StringIdx × Nat) :=
  s.concreteObjects.getD i []

/-- `TypeScope::insert_closure`. -/
def TypeScope.insertClosure (s : TypeScope) (paramTypes : List Nat)
    (returnType : Nat) (captures : Option (List (StringIdx × Nat))) :
    TypeScope × Nat :=
  ({ s with closures := s.closures ++ [(paramTypes, returnType, captures)] },
    s.closures.length)

/-- `TypeScope::closure`. -/
def TypeScope.closure (s : TypeScope) (i : Nat) :
    List Nat × Nat × Option (List (StringIdx × Nat)) :=
  s.closures.getD i ([], 0, none)

/-- `TypeScope::insert_variants`. -/
def TypeScope.insertVariants (s : TypeScope)
    (vars : List (StringIdx × Nat)) (fixed : Bool) : TypeScope × Nat :=
  ({ s with variants := s.variants ++ [(vars, fixed)] }, s.variants.length)

/-- `TypeScope::variants` accessor. -/
def TypeScope.variantsAt (s : TypeScope) (i : Nat) :
    List (StringIdx × Nat) × Bool :=
  s.variants.getD i ([], false)

/-- Union of the key sets of two member maps, embedding
`members_a.keys().chain(members_b.keys()).collect::<HashSet<_>>()`
with a deterministic iteration order (keys of `a` first). -/
def unionKeys {α : Type} (ma mb : List (Nat × α)) : List Nat :=
  ma.map Prod.fst ++ (mb.map Prod.fst).filter (fun n => n ∉ ma.map Prod.fst)

mutual

/-- `TypeScope::try_merge_groups_internal`.  Returns the success flag
together with the mutated scope, `encountered` stack and `merged` set.
The fuel strictly decreases on every recursive call; the source
terminates through its `encountered` cycle check, so sufficiently large
fuel reproduces it exactly (fuel 0 conservatively reports failure). -/
def tryMergeGroupsInternal :
    Nat → TypeScope → Nat → Nat → List Nat → List (Nat × Nat) →
    Bool × TypeScope × List Nat × List (Nat × Nat)
  | 0, s, _, _, enc, mg => (false, s, enc, mg)
  | fuel + 1, s, a, b, enc, mg =>
    let aInternal := s.groupInternalId a
    let bInternal := s.groupInternalId b
    if aInternal ∈ enc ∧ bInternal ∈ enc then (true, s, enc, mg)
    else
      let enc1 := enc ++ [aInternal, bInternal]
      let aTypes := s.group a
      let bTypes := s.group b
      match mergeTypePairsOuter fuel s aTypes bTypes [] enc1 mg with
      | (mergedTypes, s1, enc2, mg1) =>
        if mergedTypes = [] then (false, s1, enc2, mg1)
        else
          let s2 := { s1 with
            groupTypes :=
              (s1.groupTypes.set aInternal mergedTypes).set bInternal
                mergedTypes }
          (true, s2, enc2.dropLast.dropLast, insertUniq (a, b) mg1)

/-- Outer loop of the cross product
`for a_type in &a_types { for b_type in &b_types { ... } }` inside
`try_merge_groups_internal`, collecting the `merged_types` set. -/
def mergeTypePairsOuter :
    Nat → TypeScope → List Ty → List Ty → List Ty → List Nat →
    List (Nat × Nat) →
    List Ty × TypeScope × List Nat × List (Nat × Nat)
  | 0, s, _, _, acc, enc, mg => (acc, s, enc, mg)
  | _ + 1, s, [], _, acc, enc, mg => (acc, s, enc, mg)
  | fuel + 1, s, ta :: arest, bTypes, acc, enc, mg =>
    match mergeTypePairsInner fuel s ta bTypes acc enc mg with
    | (acc1, s1, enc1, mg1) =>
      mergeTypePairsOuter fuel s1 arest bTypes acc1 enc1 mg1

/-- Inner loop of the cross product inside `try_merge_groups_internal`:
merges one left-hand type against every right-hand type, inserting each
successful result into the accumulated `merged_types` set. -/
def mergeTypePairsInner :
    Nat → TypeScope → Ty → List Ty → List Ty → List Nat →
    List (Nat × Nat) →
    List Ty × TypeScope × List Nat × List (Nat × Nat)
  | 0, s, _, _, acc, enc, mg => (acc, s, enc, mg)
  | _ + 1, s, _, [], acc, enc, mg => (acc, s, enc, mg)
  | fuel + 1, s, ta, tb :: brest, acc, enc, mg =>
    match tryMergeTypesInternal fuel s ta tb enc mg with
    | (r, s1, enc1, mg1) =>
      let acc1 := match r with
        | some t => insertUniq t acc
        | none => acc
      mergeTypePairsInner fuel s1 ta brest acc1 enc1 mg1

/-- `TypeScope::try_merge_types_internal`.  The match arms appear in
source order; the final arm is the discriminant comparison. -/
def tryMergeTypesInternal :
    Nat → TypeScope → Ty → Ty → List Nat → List (Nat × Nat) →
    Option Ty × TypeScope × List Nat × List (Nat × Nat)
  | 0, s, _, _, enc, mg => (none, s, enc, mg)
  | fuel + 1, s, ta, tb, enc, mg =>
    match ta, tb with
    | .any, b => (some b, s, enc, mg)
    | a, .any => (some a, s, enc, mg)
    | .concreteObject oa, b =>
      let members := s.concreteObject oa
      match s.insertObject members false with
      | (s1, oi) => tryMergeTypesInternal fuel s1 (.object oi) b enc mg
    | a, .concreteObject ob =>
      let members := s.concreteObject ob
      match s.insertObject members false with
      | (s1, oi) => tryMergeTypesInternal fuel s1 a (.object oi) enc mg
    | .array ra, .array rb =>
      match tryMergeGroupsInternal fuel s (s.array ra) (s.array rb) enc mg with
      | (ok, s1, enc1, mg1) =>
        (if ok then some (.array ra) else none, s1, enc1, mg1)
    | .object oa, .object ob =>
      let ma := (s.object oa).1
      let fa := (s.object oa).2
      let mb := (s.object ob).1
      let fb := (s.object ob).2
      match mergeObjectMembersLoop fuel s ma mb fa fb (unionKeys ma mb) []
          enc mg with
      | (some newMembers, s1, enc1, mg1) =>
        match s1.insertObject newMembers (fa || fb) with
        | (s2, oi) => (some (.object oi), s2, enc1, mg1)
      | (none, s1, enc1, mg1) => (none, s1, enc1, mg1)
    | .closure ca, .closure cb =>
      let pa := (s.closure ca).1
      let ra := (s.closure ca).2.1
      let capsA := (s.closure ca).2.2
      let pb := (s.closure cb).1
      let rb := (s.closure cb).2.1
      let capsB := (s.closure cb).2.2
      if pa.length ≠ pb.length then (none, s, enc, mg)
      else
        match mergeClosureParamsLoop fuel s pa pb enc mg with
        | (true, s1, enc1, mg1) =>
          match tryMergeGroupsInternal fuel s1 ra rb enc1 mg1 with
          | (true, s2, enc2, mg2) =>
            match s2.insertClosure pa ra
                (if capsA.isSome then capsA else capsB) with
            | (s3, ci) => (some (.closure ci), s3, enc2, mg2)
          | (false, s2, enc2, mg2) => (none, s2, enc2, mg2)
        | (false, s1, enc1, mg1) => (none, s1, enc1, mg1)
    | .variants va, .variants vb =>
      let ma := (s.variantsAt va).1
      let fa := (s.variantsAt va).2
      let mb := (s.variantsAt vb).1
      let fb := (s.variantsAt vb).2
      match mergeObjectMembersLoop fuel s ma mb fa fb (unionKeys ma mb) []
          enc mg with
      | (some newVariants, s1, enc1, mg1) =>
        match s1.insertVariants newVariants (fa || fb) with
        | (s2, vi) => (some (.variants vi), s2, enc1, mg1)
      | (none, s1, enc1, mg1) => (none, s1, enc1, mg1)
    | a, b =>
      (if a.discrim = b.discrim then some a else none, s, enc, mg)

/-- Loop over the union of member names in the `Object`/`Object` (and,
sharing the identical source shape, `Variants`/`Variants`) arm of
`try_merge_types_internal`: a name present in both maps unifies the two
payload groups, a name present on one side only is kept exactly when
the other side is not fixed, and any failure aborts with `None`. -/
def mergeObjectMembersLoop :
    Nat → TypeScope → List (StringIdx × Nat) → List (StringIdx × Nat) →
    Bool → Bool → List Nat → List (StringIdx × Nat) → List Nat →
    List (Nat × Nat) →
    Option (List (StringIdx × Nat)) × TypeScope × List Nat ×
      List (Nat × Nat)
  | 0, s, _, _, _, _, _, _, enc, mg => (none, s, enc, mg)
  | _ + 1, s, _, _, _, _, [], acc, enc, mg => (some acc, s, enc, mg)
  | fuel + 1, s, ma, mb, fa, fb, n :: rest, acc, enc, mg =>
    match alookup ma n, alookup mb n with
    | some ga, some gb =>
      match tryMergeGroupsInternal fuel s ga gb enc mg with
      | (true, s1, enc1, mg1) =>
        mergeObjectMembersLoop fuel s1 ma mb fa fb rest (acc ++ [(n, ga)])
          enc1 mg1
      | (false, s1, enc1, mg1) => (none, s1, enc1, mg1)
    | some ga, none =>
      if fb then (none, s, enc, mg)
      else
        mergeObjectMembersLoop fuel s ma mb fa fb rest (acc ++ [(n, ga)])
          enc mg
    | none, some gb =>
      if fa then (none, s, enc, mg)
      else
        mergeObjectMembersLoop fuel s ma mb fa fb rest (acc ++ [(n, gb)])
          enc mg
    | none, none => (none, s, enc, mg)

/-- Loop over the parameter pairs in the `Closure`/`Closure` arm of
`try_merge_types_internal`. -/
def mergeClosureParamsLoop :
    Nat → TypeScope → List Nat → List Nat → List Nat →
    List (Nat × Nat) →
    Bool × TypeScope × List Nat × List (Nat × Nat)
  | 0, s, _, _, enc, mg => (false, s, enc, mg)
  | _ + 1, s, [], _, enc, mg => (true, s, enc, mg)
  | _ + 1, s, _ :: _, [], enc, mg => (false, s, enc, mg)
  | fuel + 1, s, p :: pr, q :: qr, enc, mg =>
    match tryMergeGroupsInternal fuel s p q enc mg with
    | (true, s1, enc1, mg1) =>
      mergeClosureParamsLoop fuel s1 pr qr enc1 mg1
    | (false, s1, enc1, mg1) => (false, s1, enc1, mg1)

end

/-- The alias-redirection loop at the end of
`TypeScope::try_merge_groups`: every handle whose internal index equals
the right member's internal index is redirected to the left member's
internal index. -/
def applyMergedRedirects : TypeScope → List (Nat × Nat) → TypeScope
  | s, [] => s
  | s, (ga, gb) :: rest =>
    let aInt := s.groupInternalId ga
    let bInt := s.groupInternalId gb
    let s1 :=
      if aInt ≠ bInt then
        { s with groups := s.groups.map (fun i => if i = bInt then aInt else i) }
      else s
    applyMergedRedirects s1 rest

/-- `TypeScope::try_merge_groups`: runs the internal merge with empty
`encountered` and `merged` collections and applies the alias
redirections only on overall success. -/
def TypeScope.tryMergeGroups (fuel : Nat) (s : TypeScope) (a b : Nat) :
    Bool × TypeScope :=
  match tryMergeGroupsInternal fuel s a b [] [] with
  | (false, s1, _, _) => (false, s1)
  | (true, s1, _, mg) => (true, applyMergedRedirects s1 mg)

/-- Update (insert or overwrite) in an association list embedding a
Rust `HashMap::insert`. -/
def aupdate {α : Type} : List (Nat × α) → Nat → α → List (Nat × α)
  | [], k, v => [(k, v)]
  | (k0, v0) :: rest, k, v =>
    if k0 = k then (k0, v) :: rest else (k0, v0) :: aupdate rest k v

/-- Removal from an association list embedding `HashMap::remove`. -/
def aremove {α : Type} (l : List (Nat × α)) (k : Nat) : List (Nat × α) :=
  l.filter (fun e => e.1 ≠ k)

end Gerac

namespace Gerac.SrcVariant

/-!
Embedding of `src/src/compiler/types.rs`, the older variant of the
type scope with `PossibleTypes`, `limit_possible_types` and
`types_limited`.  A `Type::Closure` value carries its own embedded
`TypeScope`.
-/

mutual

/-- `PossibleTypes` from `src/src/compiler/types.rs`. -/
inductive PT where
  | any : PT
  | oneOf : List STy → PT
  | ofGroup : Nat → PT

/-- `Type` from `src/src/compiler/types.rs`. -/
inductive STy where
  | unit : STy
  | boolean : STy
  | integer : STy
  | float : STy
  | string : STy
  | array : PT → STy
  | object : List (Nat × PT) → STy
  | closure : SScope → List Nat → PT → STy

/-- `TypeScope` from `src/src/compiler/types.rs`: `varTypeGroups` maps
a `VarTypeIdx` to the index of its type group, and `typeGroups` holds
each group's possible types together with its member list. -/
inductive SScope where
  | mk : List Nat → List (PT × List Nat) → SScope

end

/-- Field accessor for `TypeScope::var_type_groups`. -/
def SScope.varTypeGroups : SScope → List Nat
  | .mk v _ => v

/-- Field accessor for `TypeScope::type_groups`. -/
def SScope.typeGroups : SScope → List (PT × List Nat)
  | .mk _ t => t

/-- `TypeScope::new`. -/
def SScope.new : SScope := .mk [] []

/-- `TypeScope::register_variable`: allocates a fresh type group with
possible types `Any` whose member list holds the new variable index. -/
def SScope.registerVariable : SScope → SScope × Nat
  | .mk vtg tg =>
    (.mk (vtg ++ [tg.length]) (tg ++ [(PT.any, [vtg.length])]), vtg.length)

/-- `TypeScope::get_group_types`. -/
def SScope.getGroupTypes (s : SScope) (v : Nat) : PT :=
  (s.typeGroups.getD (s.varTypeGroups.getD v 0) (PT.any, [])).1

/-- Discriminant of an `STy` value, embedding
`std::mem::discriminant`. -/
def STy.discrim : STy → Nat
  | .unit => 0
  | .boolean => 1
  | .integer => 2
  | .float => 3
  | .string => 4
  | .array _ => 5
  | .object _ => 6
  | .closure _ _ _ => 7

/-- Error type of `limit_possible_types`; the formatted reason strings
of `ErrorType::NoPossibleTypes` are irrelevant to the claims and not
reproduced. -/
inductive SrcErr where
  | noPossibleTypes : SrcErr
deriving DecidableEq

/-- Resolution of the fresh parameter group inside the closure arm of
`types_limited`: reuse the group mapped for either side's parameter
index, failing on any disagreement, and otherwise register a fresh
variable in `new_scope` and record it in both maps. -/
def resolveParamGroup (ns : SScope) (aMap bMap : List (Nat × Nat))
    (ap bp : Nat) :
    Option (SScope × Nat × List (Nat × Nat) × List (Nat × Nat)) :=
  match alookup aMap ap with
  | some n =>
    match alookup bMap bp with
    | some n2 => if n ≠ n2 then none else some (ns, n, aMap, bMap)
    | none => none
  | none =>
    if (alookup bMap bp).isSome then none
    else
      match ns.registerVariable with
      | (ns1, n) => some (ns1, n, aMap ++ [(ap, n)], bMap ++ [(bp, n)])

mutual

/-- `TypeScope::limit_possible_types`. -/
def limitPossibleTypes :
    Nat → SScope → PT → PT → Except SrcErr PT × SScope
  | 0, s, _, _ => (.error .noPossibleTypes, s)
  | fuel + 1, s, a, b =>
    match possibleTypesLimited fuel s a b with
    | (some newType, s1) => (.ok newType, s1)
    | (none, s1) => (.error .noPossibleTypes, s1)

/-- `TypeScope::possible_types_limited`.  The `OfGroup`/`OfGroup` arm
redirects the right group's members to the left group's index, removes
the right group and shifts every group index above it down by one,
exactly as the source does. -/
def possibleTypesLimited :
    Nat → SScope → PT → PT → Option PT × SScope
  | 0, s, _, _ => (none, s)
  | fuel + 1, s, a, b =>
    match a, b with
    | .any, b => (some b, s)
    | a, .any => (some a, s)
    | .ofGroup ag, .ofGroup bg =>
      match possibleTypesLimited fuel s (s.getGroupTypes ag)
          (s.getGroupTypes bg) with
      | (some newType, s1) =>
        let aIdx0 := s1.varTypeGroups.getD ag 0
        let oldA := s1.typeGroups.getD aIdx0 (PT.any, [])
        let s2 : SScope :=
          .mk s1.varTypeGroups (s1.typeGroups.set aIdx0 (newType, oldA.2))
        let aGroupIdx := s2.varTypeGroups.getD ag 0
        let bGroupIdx := s2.varTypeGroups.getD bg 0
        let bMembers := (s2.typeGroups.getD bGroupIdx (PT.any, [])).2
        let vtg1 := bMembers.foldl (fun vtg v => vtg.set v aGroupIdx)
          s2.varTypeGroups
        let tg1 := s2.typeGroups.eraseIdx bGroupIdx
        let vtg2 := vtg1.map (fun i => if i ≤ bGroupIdx then i else i - 1)
        (some (.ofGroup ag), .mk vtg2 tg1)
      | (none, s1) => (none, s1)
    | .ofGroup ag, b =>
      match possibleTypesLimited fuel s (s.getGroupTypes ag) b with
      | (some newType, s1) =>
        let aIdx := s1.varTypeGroups.getD ag 0
        let oldA := s1.typeGroups.getD aIdx (PT.any, [])
        (some (.ofGroup ag),
          .mk s1.varTypeGroups (s1.typeGroups.set aIdx (newType, oldA.2)))
      | (none, s1) => (none, s1)
    | a, .ofGroup bg =>
      match possibleTypesLimited fuel s a (s.getGroupTypes bg) with
      | (some newType, s1) =>
        let bIdx := s1.varTypeGroups.getD bg 0
        let oldB := s1.typeGroups.getD bIdx (PT.any, [])
        (some (.ofGroup bg),
          .mk s1.varTypeGroups (s1.typeGroups.set bIdx (newType, oldB.2)))
      | (none, s1) => (none, s1)
    | .oneOf la, .oneOf lb =>
      match oneOfLimitOuter fuel s la lb [] with
      | (limited, s1) =>
        (if limited.isEmpty then none else some (.oneOf limited), s1)

/-- Outer loop over the left `OneOf` list in
`possible_types_limited`. -/
def oneOfLimitOuter :
    Nat → SScope → List STy → List STy → List STy → List STy × SScope
  | 0, s, _, _, acc => (acc, s)
  | _ + 1, s, [], _, acc => (acc, s)
  | fuel + 1, s, ta :: rest, lb, acc =>
    match oneOfLimitInner fuel s ta lb with
    | (some t, s1) => oneOfLimitOuter fuel s1 rest lb (acc ++ [t])
    | (none, s1) => oneOfLimitOuter fuel s1 rest lb acc

/-- Inner loop over the right `OneOf` list: the first successful
`types_limited` result is pushed and the inner loop breaks. -/
def oneOfLimitInner :
    Nat → SScope → STy → List STy → Option STy × SScope
  | 0, s, _, _ => (none, s)
  | _ + 1, s, _, [] => (none, s)
  | fuel + 1, s, ta, tb :: rest =>
    match typesLimited fuel s ta tb with
    | (some t, s1) => (some t, s1)
    | (none, s1) => oneOfLimitInner fuel s1 ta rest

/-- `TypeScope::types_limited`. -/
def typesLimited :
    Nat → SScope → STy → STy → Option STy × SScope
  | 0, s, _, _ => (none, s)
  | fuel + 1, s, a, b =>
    match a, b with
    | .array ea, .array eb =>
      match possibleTypesLimited fuel s ea eb with
      | (some nt, s1) => (some (.array nt), s1)
      | (none, s1) => (none, s1)
    | .object ma, .object mb =>
      match objectMembersLimitLoop fuel s ma mb ma with
      | (some newMembers, s1) => (some (.object newMembers), s1)
      | (none, s1) => (none, s1)
    | .closure aScope aParams aRet, .closure bScope bParams bRet =>
      if aParams.length ≠ bParams.length then (none, s)
      else
        match closureParamsLoopS fuel aScope bScope aParams bParams
            SScope.new [] [] [] with
        | none => (none, s)
        | some (ns, nParams, aMap, bMap) =>
          match aRet with
          | .ofGroup aRetGroup =>
            match alookup aMap aRetGroup with
            | none => (none, s)
            | some nRetA =>
              closureReturnLimit fuel s ns nParams (.ofGroup nRetA) bRet bMap
          | _ => closureReturnLimit fuel s ns nParams aRet bRet bMap
    | a, b =>
      (if a.discrim = b.discrim then some a else none, s)

/-- Remapping of the right return type and the final return-type limit
in the closure arm of `types_limited`. -/
def closureReturnLimit :
    Nat → SScope → SScope → List Nat → PT → PT → List (Nat × Nat) →
    Option STy × SScope
  | 0, s, _, _, _, _, _ => (none, s)
  | fuel + 1, s, ns, nParams, aRet, bRet, bMap =>
    match bRet with
    | .ofGroup bRetGroup =>
      match alookup bMap bRetGroup with
      | none => (none, s)
      | some nRetB =>
        match possibleTypesLimited fuel ns aRet (.ofGroup nRetB) with
        | (some returnedType, ns1) =>
          (some (.closure ns1 nParams returnedType), s)
        | (none, _) => (none, s)
    | _ =>
      match possibleTypesLimited fuel ns aRet bRet with
      | (some returnedType, ns1) =>
        (some (.closure ns1 nParams returnedType), s)
      | (none, _) => (none, s)

/-- Loop over the `Object` member map of the right side in
`types_limited`: starts from a clone of the left map, limits members
present in both and inserts members only present on the right. -/
def objectMembersLimitLoop :
    Nat → SScope → List (Nat × PT) → List (Nat × PT) → List (Nat × PT) →
    Option (List (Nat × PT)) × SScope
  | 0, s, _, _, _ => (none, s)
  | _ + 1, s, _, [], acc => (some acc, s)
  | fuel + 1, s, ma, (name, bt) :: rest, acc =>
    match alookup ma name with
    | some ta =>
      match possibleTypesLimited fuel s ta bt with
      | (some nt, s1) =>
        objectMembersLimitLoop fuel s1 ma rest (aupdate acc name nt)
      | (none, s1) => (none, s1)
    | none => objectMembersLimitLoop fuel s ma rest (aupdate acc name bt)

/-- Parameter loop of the closure arm of `types_limited`.  After the
fresh parameter group is resolved, the source tests
`if let Ok(_) = new_scope.limit_possible_types(...) { return None; }`
for each side, so a successful limit aborts the whole limiter and the
loop proceeds past a parameter only when both limits fail. -/
def closureParamsLoopS :
    Nat → SScope → SScope → List Nat → List Nat → SScope →
    List (Nat × Nat) → List (Nat × Nat) → List Nat →
    Option (SScope × List Nat × List (Nat × Nat) × List (Nat × Nat))
  | _, _, _, [], [], ns, aMap, bMap, acc => some (ns, acc, aMap, bMap)
  | 0, _, _, _, _, _, _, _, _ => none
  | fuel + 1, aScope, bScope, ap :: ar, bp :: br, ns, aMap, bMap, acc =>
    match resolveParamGroup ns aMap bMap ap bp with
    | none => none
    | some (ns1, n, aMap1, bMap1) =>
      match limitPossibleTypes fuel ns1 (.ofGroup n)
          (aScope.getGroupTypes ap) with
      | (.ok _, _) => none
      | (.error _, ns2) =>
        match limitPossibleTypes fuel ns2 (.ofGroup n)
            (bScope.getGroupTypes bp) with
        | (.ok _, _) => none
        | (.error _, ns3) =>
          closureParamsLoopS fuel aScope bScope ar br ns3 aMap1 bMap1
            (acc ++ [n])
  | _ + 1, _, _, _, _, _, _, _, _ => none

end

/-- Example closure-side scope: one variable of possible types `Any`. -/
def exS : SScope := (SScope.new.registerVariable).1

end Gerac.SrcVariant

namespace Gerac.Check

/-!
Embedding of parts of `src/compiler/src/frontend/type_checking.rs`.
That file is compiled against a `TypeScope` with `VarTypeIdx` handles,
`register_variable`, `get_group_types`, `get_group_internal_index` and
an `Option`-returning `limit_possible_types`; that version of
`types.rs` is not part of the given sources (only this caller is), so
those scope operations are modelled from the spec where needed.
-/

/-- `Type` from `type_checking.rs` (the `VarTypeIdx` based variant):
groups are referenced by index, `ConcreteObject` nests constructors
directly. -/
inductive Ty9 where
  | unit : Ty9
  | boolean : Ty9
  | integer : Ty9
  | float : Ty9
  | string : Ty9
  | panic : Ty9
  | array : Nat → Ty9
  | object : List (Nat × Nat) → Bool → Ty9
  | concreteObject : List (Nat × Ty9) → Ty9
  | closure : List Nat → Nat → Option (List (Nat × Nat)) → Ty9
  | variants : List (Nat × Nat) → Bool → Ty9

/-- Modelled from the spec: the type scope read by `display_types`.
`get_group_internal_index` returns the canonical identity of a group
handle after any aliasing, and `get_group_types` returns its
possibility set, `none` meaning unconstrained ("any type").  The
`VarTypeIdx`-based `TypeScope` these operations live on is not among
the given sources. -/
structure DisplayScope where
  groups : List Nat
  groupTypes : List (Option (List Ty9))

/-- Modelled from the spec: `TypeScope::get_group_internal_index`. -/
def DisplayScope.getGroupInternalIndex (sc : DisplayScope) (g : Nat) :
    Nat :=
  sc.groups.getD g 0

/-- Modelled from the spec: `TypeScope::get_group_types`. -/
def DisplayScope.getGroupTypes (sc : DisplayScope) (g : Nat) :
    Option (List Ty9) :=
  sc.groupTypes.getD (sc.getGroupInternalIndex g) none

/-- Modelled from the spec:
`TypeScope::get_group_types_from_internal_index`. -/
def DisplayScope.getGroupTypesFromInternalIndex (sc : DisplayScope)
    (i : Nat) : Option (List Ty9) :=
  sc.groupTypes.getD i none

/-- The `LETTERS` array of `display_types::choose_letter`. -/
def LETTERS : List Char :=
  ['A', 'B', 'C', 'D', 'E', 'F', 'G', 'H', 'I', 'J', 'K', 'L', 'M',
   'N', 'O', 'P', 'Q', 'R', 'S', 'T', 'U', 'V', 'W', 'X', 'Y', 'Z']

/-- Character list built by the loop of `display_types::choose_letter`:
pushes `LETTERS[i % 26]` and repeats on `i / 26` until it reaches 0. -/
def chooseLetterChars (i : Nat) : List Char :=
  let c := LETTERS.getD (i % 26) 'A'
  let i2 := i / 26
  if _h : i2 = 0 then [c] else c :: chooseLetterChars i2
termination_by i
decreasing_by
  exact Nat.div_lt_self (by omega) (by omega)

/-- `display_types::choose_letter`. -/
def chooseLetter (i : Nat) : String :=
  ⟨chooseLetterChars i⟩

mutual

/-- `display_types::collect_letters`: the first pass that counts how
many times each internal group index is referenced and assigns each
newly encountered index the label `choose_letter(letters.len())`. -/
def collectLetters :
    Nat → DisplayScope → Nat → List (Nat × String × Nat) →
    List (Nat × String × Nat)
  | 0, _, _, letters => letters
  | fuel + 1, sc, g, letters =>
    let idx := sc.getGroupInternalIndex g
    match alookup letters idx with
    | some (ltr, usages) =>
      let letters1 := aupdate letters idx (ltr, usages + 1)
      if usages + 1 ≥ 2 then letters1
      else collectLettersGroup fuel sc (sc.getGroupTypes g) letters1
    | none =>
      let letter := chooseLetter letters.length
      let letters1 := letters ++ [(idx, (letter, 1))]
      collectLettersGroup fuel sc (sc.getGroupTypes g) letters1

/-- Recursion of `collect_letters` into a group's possibility set. -/
def collectLettersGroup :
    Nat → DisplayScope → Option (List Ty9) → List (Nat × String × Nat) →
    List (Nat × String × Nat)
  | 0, _, _, letters => letters
  | fuel + 1, sc, o, letters =>
    match o with
    | some ptys => collectTypeLettersList fuel sc ptys letters
    | none => letters

/-- Fold of `collect_type_letters` over a possibility set. -/
def collectTypeLettersList :
    Nat → DisplayScope → List Ty9 → List (Nat × String × Nat) →
    List (Nat × String × Nat)
  | 0, _, _, letters => letters
  | _ + 1, _, [], letters => letters
  | fuel + 1, sc, t :: rest, letters =>
    collectTypeLettersList fuel sc rest (collectTypeLetters fuel sc t letters)

/-- `display_types::collect_type_letters`. -/
def collectTypeLetters :
    Nat → DisplayScope → Ty9 → List (Nat × String × Nat) →
    List (Nat × String × Nat)
  | 0, _, _, letters => letters
  | fuel + 1, sc, t, letters =>
    match t with
    | .unit | .boolean | .integer | .float | .string | .panic => letters
    | .array elementTypes => collectLetters fuel sc elementTypes letters
    | .object memberTypes _ =>
      collectLettersPairList fuel sc memberTypes letters
    | .concreteObject memberTypes =>
      collectTypeLettersPairList fuel sc memberTypes letters
    | .closure parameterTypes returnTypes _ =>
      collectLetters fuel sc returnTypes
        (collectLettersNatList fuel sc parameterTypes letters)
    | .variants variantTypes _ =>
      collectLettersPairList fuel sc variantTypes letters

/-- Fold of `collect_letters` over the groups of a member map. -/
def collectLettersPairList :
    Nat → DisplayScope → List (Nat × Nat) → List (Nat × String × Nat) →
    List (Nat × String × Nat)
  | 0, _, _, letters => letters
  | _ + 1, _, [], letters => letters
  | fuel + 1, sc, (_, g) :: rest, letters =>
    collectLettersPairList fuel sc rest (collectLetters fuel sc g letters)

/-- Fold of `collect_type_letters` over a `ConcreteObject` member
list. -/
def collectTypeLettersPairList :
    Nat → DisplayScope → List (Nat × Ty9) → List (Nat × String × Nat) →
    List (Nat × String × Nat)
  | 0, _, _, letters => letters
  | _ + 1, _, [], letters => letters
  | fuel + 1, sc, (_, t) :: rest, letters =>
    collectTypeLettersPairList fuel sc rest
      (collectTypeLetters fuel sc t letters)

/-- Fold of `collect_letters` over a closure's parameter groups. -/
def collectLettersNatList :
    Nat → DisplayScope → List Nat → List (Nat × String × Nat) →
    List (Nat × String × Nat)
  | 0, _, _, letters => letters
  | _ + 1, _, [], letters => letters
  | fuel + 1, sc, g :: rest, letters =>
    collectLettersNatList fuel sc rest (collectLetters fuel sc g letters)

end

mutual

/-- `display_types::display_types_internal`: an internal index that has
a letter with usage count at least two renders as its letter; any other
group renders its possibility set. -/
def displayTypesInternalD :
    Nat → (Nat → String) → DisplayScope → Nat →
    List (Nat × String × Nat) → String
  | 0, _, _, _, _ => ""
  | fuel + 1, strings, sc, g, letters =>
    let idx := sc.getGroupInternalIndex g
    match alookup letters idx with
    | some (ltr, usageCount) =>
      if usageCount ≥ 2 then ltr
      else displayGroupTypesD fuel strings sc (sc.getGroupTypes g) letters
    | none =>
      displayGroupTypesD fuel strings sc (sc.getGroupTypes g) letters

/-- `display_types::display_group_types`. -/
def displayGroupTypesD :
    Nat → (Nat → String) → DisplayScope → Option (List Ty9) →
    List (Nat × String × Nat) → String
  | 0, _, _, _, _ => ""
  | fuel + 1, strings, sc, o, letters =>
    match o with
    | some possibleTypes =>
      (if possibleTypes.length > 1 then "(" else "")
        ++ String.intercalate " | "
          (displayTypeListD fuel strings sc possibleTypes letters)
        ++ (if possibleTypes.length > 1 then ")" else "")
    | none => "any"

/-- Rendering of each member of a possibility set. -/
def displayTypeListD :
    Nat → (Nat → String) → DisplayScope → List Ty9 →
    List (Nat × String × Nat) → List String
  | 0, _, _, _, _ => []
  | _ + 1, _, _, [], _ => []
  | fuel + 1, strings, sc, t :: rest, letters =>
    displayTypeD fuel strings sc t letters
      :: displayTypeListD fuel strings sc rest letters

/-- `display_types::display_type`. -/
def displayTypeD :
    Nat → (Nat → String) → DisplayScope → Ty9 →
    List (Nat × String × Nat) → String
  | 0, _, _, _, _ => ""
  | fuel + 1, strings, sc, t, letters =>
    match t with
    | .unit => "unit"
    | .boolean => "boolean"
    | .integer => "integer"
    | .float => "float"
    | .string => "string"
    | .panic => "panic"
    | .array elementType =>
      "[" ++ displayTypesInternalD fuel strings sc elementType letters ++ "]"
    | .object memberTypes fixed =>
      "\x7b "
        ++ String.intercalate ", "
          (displayMemberListD fuel strings sc memberTypes letters)
        ++ (if fixed then "" else ", ...")
        ++ " \x7d"
    | .concreteObject memberTypes =>
      "\x7b "
        ++ String.intercalate ", "
          (displayConcreteMemberListD fuel strings sc memberTypes letters)
        ++ ", ... \x7d"
    | .closure argGroups returnedGroup _ =>
      "("
        ++ String.intercalate ", "
          (displayGroupListD fuel strings sc argGroups letters)
        ++ ") -> "
        ++ displayTypesInternalD fuel strings sc returnedGroup letters
    | .variants variantTypes fixed =>
      "("
        ++ String.intercalate " | "
          (displayVariantListD fuel strings sc variantTypes letters)
        ++ (if fixed then "" else " | ...")
        ++ ")"

/-- Rendering of object members. -/
def displayMemberListD :
    Nat → (Nat → String) → DisplayScope → List (Nat × Nat) →
    List (Nat × String × Nat) → List String
  | 0, _, _, _, _ => []
  | _ + 1, _, _, [], _ => []
  | fuel + 1, strings, sc, (name, g) :: rest, letters =>
    (strings name ++ " = " ++ displayTypesInternalD fuel strings sc g letters)
      :: displayMemberListD fuel strings sc rest letters

/-- Rendering of `ConcreteObject` members. -/
def displayConcreteMemberListD :
    Nat → (Nat → String) → DisplayScope → List (Nat × Ty9) →
    List (Nat × String × Nat) → List String
  | 0, _, _, _, _ => []
  | _ + 1, _, _, [], _ => []
  | fuel + 1, strings, sc, (name, t) :: rest, letters =>
    (strings name ++ " = " ++ displayTypeD fuel strings sc t letters)
      :: displayConcreteMemberListD fuel strings sc rest letters

/-- Rendering of closure parameter groups. -/
def displayGroupListD :
    Nat → (Nat → String) → DisplayScope → List Nat →
    List (Nat × String × Nat) → List String
  | 0, _, _, _, _ => []
  | _ + 1, _, _, [], _ => []
  | fuel + 1, strings, sc, g :: rest, letters =>
    displayTypesInternalD fuel strings sc g letters
      :: displayGroupListD fuel strings sc rest letters

/-- Rendering of variant cases. -/
def displayVariantListD :
    Nat → (Nat → String) → DisplayScope → List (Nat × Nat) →
    List (Nat × String × Nat) → List String
  | 0, _, _, _, _ => []
  | _ + 1, _, _, [], _ => []
  | fuel + 1, strings, sc, (name, g) :: rest, letters =>
    ("#" ++ strings name ++ " "
        ++ displayTypesInternalD fuel strings sc g letters)
      :: displayVariantListD fuel strings sc rest letters

end

/-- The trailing loop of `display_types` that builds the `where`
clause: letters with usage count below two are skipped. -/
def letterTypesLoop (fuel : Nat) (strings : Nat → String)
    (sc : DisplayScope) (allLetters : List (Nat × String × Nat)) :
    List (Nat × String × Nat) → String → String
  | [], acc => acc
  | (idx, (ltr, cnt)) :: rest, acc =>
    if cnt < 2 then letterTypesLoop fuel strings sc allLetters rest acc
    else
      letterTypesLoop fuel strings sc allLetters rest
        ((if acc.length > 0 then acc ++ ", " else acc)
          ++ ltr ++ " = "
          ++ displayGroupTypesD fuel strings sc
            (sc.getGroupTypesFromInternalIndex idx) allLetters)

/-- `display_types`. -/
def displayTypes (fuel : Nat) (strings : Nat → String)
    (sc : DisplayScope) (types : Nat) : String :=
  let letters := collectLetters fuel sc types []
  let result := displayTypesInternalD fuel strings sc types letters
  let letterTypes := letterTypesLoop fuel strings sc letters letters ""
  if letterTypes.length > 0 then result ++ " where " ++ letterTypes
  else result

/-!
Embedding of `initalize_variables` (sic) and `assert_types`.
-/

/-- Variable record in the tables of the node checker:
`(VarTypeIdx, bool, SourceRange)` with the source range reduced to a
number. -/
abbrev VarInfo := Nat × Bool × Nat

/-- Initialized or uninitialized variable table. -/
abbrev VarTable := List (Nat × VarInfo)

/-- Errors of `initalize_variables`: a failed type assertion, or the
`panic!` for a variable in neither table. -/
inductive InitErr where
  | typeMismatch : InitErr
  | missingVariable : InitErr
deriving DecidableEq, Repr

/-- `assert_types`: performs `limit_possible_types` on the two asserted
groups and reports a `NoPossibleTypes` error on failure.  Modelled from
the spec for the scope operation: the unification itself is the
in-source `try_merge_groups` of the compiler variant, which returns a
success flag; the unified handle returned on success is the left
handle, both being aliases afterwards. -/
def assertTypes (fuel : Nat) (s : TypeScope) (a b : Nat) :
    Except InitErr Nat × TypeScope :=
  match s.tryMergeGroups fuel a b with
  | (true, s1) => (.ok a, s1)
  | (false, s1) => (.error .typeMismatch, s1)

/-- Per-branch data handed to `initalize_variables`: the branch's
variables table, its uninitialized table and its
`(sometimes_returns, always_returns)` pair. -/
abbrev BranchData := VarTable × VarTable × (Bool × Bool)

/-- The inner loop of `initalize_variables` over the branch scopes for
one uninitialized name: a branch that still holds the name as
uninitialized and does not always return breaks with
`always_has_value = false`; a branch that initialized it asserts its
group against the parent's group; a branch with the name in neither
table panics (modelled as an error). -/
def initVarBranchLoop (fuel : Nat) (s : TypeScope) (name varTypes : Nat) :
    List BranchData → Except InitErr Bool × TypeScope
  | [] => (.ok true, s)
  | (bVars, bUninit, bRets) :: rest =>
    if (alookup bUninit name).isSome then
      if !bRets.2 then (.ok false, s)
      else initVarBranchLoop fuel s name varTypes rest
    else
      match alookup bVars name with
      | some (bTypes, _, _) =>
        match assertTypes fuel s varTypes bTypes with
        | (.ok _, s1) => initVarBranchLoop fuel s1 name varTypes rest
        | (.error e, s1) => (.error e, s1)
      | none => (.error .missingVariable, s)

/-- The outer loop of `initalize_variables` over the names collected
from the parent's uninitialized table. -/
def initVarsGo (fuel : Nat) (branches : List BranchData) :
    List Nat → TypeScope → VarTable → VarTable →
    Except InitErr Unit × TypeScope × VarTable × VarTable
  | [], s, vars, uninit => (.ok (), s, vars, uninit)
  | name :: rest, s, vars, uninit =>
    match alookup uninit name with
    | some info =>
      match initVarBranchLoop fuel s name info.1 branches with
      | (.ok alwaysHasValue, s1) =>
        if !alwaysHasValue then initVarsGo fuel branches rest s1 vars uninit
        else
          initVarsGo fuel branches rest s1 (aupdate vars name info)
            (aremove uninit name)
      | (.error e, s1) => (.error e, s1, vars, uninit)
    | none => (.error .missingVariable, s, vars, uninit)

/-- `initalize_variables` from `type_checking.rs`. -/
def initalizeVariables (fuel : Nat) (s : TypeScope)
    (vars uninit : VarTable) (branches : List BranchData) :
    Except InitErr Unit × TypeScope × VarTable × VarTable :=
  initVarsGo fuel branches (uninit.map Prod.fst) s vars uninit

/-!
Embedding of the symbol-level logic of `type_check_symbol`.  The node
checker `type_check_nodes` spans most of `type_checking.rs`; for the
claims about the symbol tables only its interaction with them matters:
checking a body recursively invokes `type_check_symbol` on every symbol
path the body references (the `Call` and `ModuleAccess` arms).  A body
or constant value is therefore embedded as the list of symbol paths it
references, and the typed body as that same list; group allocation and
the recursive-procedure stack do not touch the two symbol tables and
are not represented.
-/

/-- An untyped symbol: a procedure or constant whose body/value is
reduced to the list of symbol paths it references. -/
inductive USym where
  | procedure : List Nat → USym
  | constant : List Nat → USym
deriving DecidableEq, Repr

/-- A typed symbol.  A procedure's `body` is `none` or the typed body;
the source publishes `body: Some(Vec::new())` before checking and
overwrites it with the typed body afterwards. -/
inductive TSym where
  | procedure : Option (List Nat) → TSym
  | constant : TSym
deriving DecidableEq, Repr

/-- Errors of `type_check_symbol` in this model. -/
inductive SymErr where
  | recursiveConstant : Nat → SymErr
  | outOfFuel : SymErr
deriving DecidableEq, Repr

/-- The two symbol tables threaded through `type_check_symbol`:
`untyped` is consumed, `typed` is appended and updated. -/
structure SymState where
  untyped : List (Nat × USym)
  typed : List (Nat × TSym)
deriving DecidableEq, Repr

/-- The publication step at lines 338-346 of `type_checking.rs`: the
`Procedure` symbol is installed in the typed table immediately, with
`body = Some(Vec::new())`, before its body is checked. -/
def publishProcedure (typed : List (Nat × TSym)) (name : Nat) :
    List (Nat × TSym) :=
  aupdate typed name (.procedure (some []))

/-- The shared fall-through at lines 474-481 of `type_checking.rs`: after
the untyped symbol (if any) has been processed, the name is looked up in
the typed table and `RecursiveConstant` is reported when it is absent;
an error from processing propagates unchanged. -/
def finishSymbol (name : Nat) :
    Except SymErr Unit × SymState → Except SymErr Unit × SymState
  | (.error e, st2) => (.error e, st2)
  | (.ok _, st2) =>
    if (alookup st2.typed name).isSome then (.ok (), st2)
    else (.error (.recursiveConstant name), st2)

mutual

/-- `type_check_symbol`: removes the symbol from the untyped table and
checks it (a procedure is published before its body is checked, a
constant is installed only after its value is checked), then looks the
name up in the typed table, reporting `RecursiveConstant` when it is
absent. -/
def typeCheckSymbol : Nat → SymState → Nat → Except SymErr Unit × SymState
  | 0, st, _ => (.error .outOfFuel, st)
  | fuel + 1, st, name =>
    finishSymbol name
      (match alookup st.untyped name with
      | some (.procedure refs) =>
        let st1 : SymState :=
          { untyped := aremove st.untyped name,
            typed := publishProcedure st.typed name }
        match checkRefs fuel st1 refs with
        | (.ok _, st2) =>
          (.ok (), { st2 with
            typed := aupdate st2.typed name (.procedure (some refs)) })
        | (.error e, st2) => (.error e, st2)
      | some (.constant refs) =>
        let st1 : SymState := { st with untyped := aremove st.untyped name }
        match checkRefs fuel st1 refs with
        | (.ok _, st2) =>
          (.ok (), { st2 with typed := aupdate st2.typed name .constant })
        | (.error e, st2) => (.error e, st2)
      | none => (.ok (), st))

/-- Checking a body: recursively type check every referenced symbol,
propagating the first error. -/
def checkRefs : Nat → SymState → List Nat → Except SymErr Unit × SymState
  | 0, st, _ => (.error .outOfFuel, st)
  | _ + 1, st, [] => (.ok (), st)
  | fuel + 1, st, r :: rest =>
    match typeCheckSymbol fuel st r with
    | (.ok _, st1) => checkRefs fuel st1 rest
    | (.error e, st1) => (.error e, st1)

end

end Gerac.Check

namespace Gerac

/-- Example scope: group 0 is unconstrained (`Any`), group 1 holds only
`Integer`. -/
def exAnyIntScope : TypeScope :=
  { groups := [0, 1], groupTypes := [[.any], [.integer]],
    arrays := [], objects := [], concreteObjects := [], closures := [],
    variants := [] }

/-- Example scope: groups 0 and 1 hold distinct array constructors
whose element groups 2 and 3 are unconstrained. -/
def exArrScope : TypeScope :=
  { groups := [0, 1, 2, 3],
    groupTypes := [[.array 0], [.array 1], [.any], [.any]],
    arrays := [2, 3], objects := [], concreteObjects := [], closures := [],
    variants := [] }

/-- Example scope with primitive-only sets: group 0 holds `Integer`,
group 1 holds `Integer` and `Float`. -/
def exPrimScope : TypeScope :=
  { groups := [0, 1], groupTypes := [[.integer], [.integer, .float]],
    arrays := [], objects := [], concreteObjects := [], closures := [],
    variants := [] }

/-- Example scope mixing `Any` and primitives: group 0 is
unconstrained, group 1 holds `Integer` and `String`. -/
def exAnyMixScope : TypeScope :=
  { groups := [0, 1], groupTypes := [[.any], [.integer, .string]],
    arrays := [], objects := [], concreteObjects := [], closures := [],
    variants := [] }

/-- Example scope: group 0 holds only `Integer`, group 1 only `String`;
merging them fails. -/
def exFailScope : TypeScope :=
  { groups := [0, 1], groupTypes := [[.integer], [.string]],
    arrays := [], objects := [], concreteObjects := [], closures := [],
    variants := [] }

end Gerac

namespace Gerac

/-- A constructor that is neither `Any` nor structural. -/
def Ty.isPrim : Ty → Bool
  | .any | .array _ | .object _ | .concreteObject _ | .closure _
  | .variants _ => false
  | _ => true

/-- A constructor that is not structural (`Any` or a primitive). -/
def Ty.isPrimOrAny : Ty → Bool
  | .array _ | .object _ | .concreteObject _ | .closure _
  | .variants _ => false
  | _ => true

/-- Result of `try_merge_types_internal` on non-structural
constructors: `Any` yields the other side, otherwise equal
constructors merge to the left one. -/
def primMerge : Ty → Ty → Option Ty
  | .any, b => some b
  | a, .any => some a
  | a, b => if a = b then some a else none

/-- Accumulator computed by the inner cross-product loop on
non-structural constructors. -/
def primInnerAcc (ta : Ty) : List Ty → List Ty → List Ty
  | [], acc => acc
  | tb :: rest, acc =>
    primInnerAcc ta rest
      (match primMerge ta tb with
        | some t => insertUniq t acc
        | none => acc)

/-- Accumulator computed by the outer cross-product loop on
non-structural constructors. -/
def primOuterAcc : List Ty → List Ty → List Ty → List Ty
  | [], _, acc => acc
  | ta :: arest, bs, acc => primOuterAcc arest bs (primInnerAcc ta bs acc)

end Gerac

namespace Gerac.Check

/-- For the amended C4 claim (spec-following reference definition):
sequential unification of the parent's recorded group against the
branch group of every branch that has initialized the name, skipping
branches that still hold it uninitialized. -/
def unifyInitializing (fuel varTypes name : Nat) :
    TypeScope → List BranchData → Except InitErr Unit × TypeScope
  | s, [] => (.ok (), s)
  | s, (bVars, bUninit, _) :: rest =>
    if (alookup bUninit name).isSome then
      unifyInitializing fuel varTypes name s rest
    else
      match alookup bVars name with
      | some (bTypes, _, _) =>
        match assertTypes fuel s varTypes bTypes with
        | (.ok _, s1) => unifyInitializing fuel varTypes name s1 rest
        | (.error e, s1) => (.error e, s1)
      | none => (.error .missingVariable, s)

end Gerac.Check

namespace Gerac.Check

/-- A name resolvable by `type_check_symbol`: present in the untyped or
in the typed symbol table. -/
def resolvable (st : SymState) (k : Nat) : Prop :=
  (alookup st.untyped k).isSome = true ∨ (alookup st.typed k).isSome = true

/-- The closed world of mutually recursive procedures: every untyped
symbol is a procedure, untyped keys are unduplicated, and every symbol
path referenced by an untyped body is itself resolvable. -/
def GoodProcs (st : SymState) : Prop :=
  (st.untyped.map Prod.fst).Nodup ∧
  ∀ p ∈ st.untyped, ∃ refs, p.2 = USym.procedure refs ∧
    ∀ r ∈ refs, resolvable st r

/-- Fuel cost of one untyped symbol. -/
def usymSize : USym → Nat
  | .procedure refs => 2 + refs.length
  | .constant refs => 2 + refs.length

/-- Total fuel cost of the untyped table. -/
def symMeasure (st : SymState) : Nat :=
  (st.untyped.map (fun p => usymSize p.2)).sum

end Gerac.Check

namespace Gerac.Check

/-- No typed `Procedure` symbol with `body = none`: the in-progress
marker the code actually publishes is `body = Some(Vec::new())`, so a
table satisfying this predicate keeps satisfying it. -/
def NoNoneBody (typed : List (Nat × TSym)) : Prop :=
  ∀ p ∈ typed, p.2 ≠ TSym.procedure none

end Gerac.Check

namespace Gerac

theorem groups_mergeAll : ∀ fuel : Nat,
    (∀ s a b enc mg,
      (tryMergeGroupsInternal fuel s a b enc mg).2.1.groups = s.groups) ∧
    (∀ s ta bs acc enc mg,
      (mergeTypePairsInner fuel s ta bs acc enc mg).2.1.groups = s.groups) ∧
    (∀ s as bs acc enc mg,
      (mergeTypePairsOuter fuel s as bs acc enc mg).2.1.groups = s.groups) ∧
    (∀ s ta tb enc mg,
      (tryMergeTypesInternal fuel s ta tb enc mg).2.1.groups = s.groups) ∧
    (∀ s ma mb fa fb names acc enc mg,
      (mergeObjectMembersLoop fuel s ma mb fa fb names acc enc mg).2.1.groups
        = s.groups) ∧
    (∀ s pa pb enc mg,
      (mergeClosureParamsLoop fuel s pa pb enc mg).2.1.groups = s.groups) := by
  intro fuel
  induction fuel with
  | zero =>
    refine ⟨?_, ?_, ?_, ?_, ?_, ?_⟩ <;> intros <;>
      simp [tryMergeGroupsInternal, mergeTypePairsInner, mergeTypePairsOuter,
        tryMergeTypesInternal, mergeObjectMembersLoop, mergeClosureParamsLoop]
  | succ fuel ih =>
    obtain ⟨ihG, ihI, ihO, ihT, ihM, ihC⟩ := ih
    refine ⟨?_, ?_, ?_, ?_, ?_, ?_⟩
    · intro s a b enc mg
      simp only [tryMergeGroupsInternal]
      split
      · rfl
      · rcases hOut : mergeTypePairsOuter fuel s (s.group a) (s.group b) []
            (enc ++ [s.groupInternalId a, s.groupInternalId b]) mg with
          ⟨mt, s1, enc2, mg1⟩
        have h1 : s1.groups = s.groups := by
          have := ihO s (s.group a) (s.group b) []
            (enc ++ [s.groupInternalId a, s.groupInternalId b]) mg
          rw [hOut] at this
          exact this
        simp only [hOut]
        split
        · exact h1
        · exact h1
    · intro s ta bs acc enc mg
      cases bs with
      | nil => simp [mergeTypePairsInner]
      | cons tb rest =>
        simp only [mergeTypePairsInner]
        rcases hT : tryMergeTypesInternal fuel s ta tb enc mg with
          ⟨r, s1, enc1, mg1⟩
        have h1 : s1.groups = s.groups := by
          have := ihT s ta tb enc mg
          rw [hT] at this
          exact this
        simp only [hT]
        rw [ihI s1, h1]
    · intro s as bs acc enc mg
      cases as with
      | nil => simp [mergeTypePairsOuter]
      | cons ta arest =>
        simp only [mergeTypePairsOuter]
        rcases hI : mergeTypePairsInner fuel s ta bs acc enc mg with
          ⟨acc1, s1, enc1, mg1⟩
        have h1 : s1.groups = s.groups := by
          have := ihI s ta bs acc enc mg
          rw [hI] at this
          exact this
        simp only [hI]
        rw [ihO s1, h1]
    · intro s ta tb enc mg
      have hT1 : ∀ s1 ta tb, (tryMergeTypesInternal fuel s1 ta tb enc mg).2.1.groups = s1.groups := fun s1 ta tb => ihT s1 ta tb enc mg
      have hG1 : ∀ s1 a b enc mg,
          (tryMergeGroupsInternal fuel s1 a b enc mg).2.1.groups = s1.groups :=
        ihG
      have hM1 : ∀ s1 ma mb fa fb names acc enc mg,
          (mergeObjectMembersLoop fuel s1 ma mb fa fb names acc enc
            mg).2.1.groups = s1.groups := ihM
      have hC1 : ∀ s1 pa pb enc mg,
          (mergeClosureParamsLoop fuel s1 pa pb enc mg).2.1.groups =
            s1.groups := ihC
      cases ta <;> cases tb <;> simp only [tryMergeTypesInternal] <;> try rfl
      all_goals try (rw [hT1]; rfl)
      case array.array ra rb =>
        rcases hG : tryMergeGroupsInternal fuel s (s.array ra) (s.array rb)
            enc mg with ⟨ok, s1, e1, m1⟩
        have h1 : s1.groups = s.groups := by
          have := hG1 s (s.array ra) (s.array rb) enc mg
          rw [hG] at this; exact this
        try simp only [hG]
        exact h1
      case object.object oa ob =>
        rcases hM : mergeObjectMembersLoop fuel s (s.object oa).1
            (s.object ob).1 (s.object oa).2 (s.object ob).2
            (unionKeys (s.object oa).1 (s.object ob).1) [] enc mg with
          ⟨r, s1, e1, m1⟩
        have h1 : s1.groups = s.groups := by
          have := hM1 s (s.object oa).1 (s.object ob).1 (s.object oa).2
            (s.object ob).2 (unionKeys (s.object oa).1 (s.object ob).1) []
            enc mg
          rw [hM] at this; exact this
        try simp only [hM]
        cases r <;> exact h1
      case variants.variants va vb =>
        rcases hM : mergeObjectMembersLoop fuel s (s.variantsAt va).1
            (s.variantsAt vb).1 (s.variantsAt va).2 (s.variantsAt vb).2
            (unionKeys (s.variantsAt va).1 (s.variantsAt vb).1) [] enc mg with
          ⟨r, s1, e1, m1⟩
        have h1 : s1.groups = s.groups := by
          have := hM1 s (s.variantsAt va).1 (s.variantsAt vb).1
            (s.variantsAt va).2 (s.variantsAt vb).2
            (unionKeys (s.variantsAt va).1 (s.variantsAt vb).1) [] enc mg
          rw [hM] at this; exact this
        try simp only [hM]
        cases r <;> exact h1
      case closure.closure ca cb =>
        split
        · rfl
        · rcases hC : mergeClosureParamsLoop fuel s (s.closure ca).1
              (s.closure cb).1 enc mg with ⟨okp, s1, e1, m1⟩
          have h1 : s1.groups = s.groups := by
            have := hC1 s (s.closure ca).1 (s.closure cb).1 enc mg
            rw [hC] at this; exact this
          try simp only [hC]
          cases okp
          · exact h1
          · rcases hG : tryMergeGroupsInternal fuel s1 (s.closure ca).2.1
                (s.closure cb).2.1 e1 m1 with ⟨okr, s2, e2, m2⟩
            have h2 : s2.groups = s1.groups := by
              have := hG1 s1 (s.closure ca).2.1 (s.closure cb).2.1 e1 m1
              rw [hG] at this; exact this
            try simp only [hG]
            cases okr
            · exact h2.trans h1
            · exact h2.trans h1
    · intro s ma mb fa fb names acc enc mg
      cases names with
      | nil => simp [mergeObjectMembersLoop]
      | cons n rest =>
        rcases hla : alookup ma n with _ | ga <;>
          rcases hlb : alookup mb n with _ | gb <;>
            simp only [mergeObjectMembersLoop, hla, hlb]
        · split
          · rfl
          · exact ihM s ma mb fa fb rest (acc ++ [(n, gb)]) enc mg
        · split
          · rfl
          · exact ihM s ma mb fa fb rest (acc ++ [(n, ga)]) enc mg
        · rcases hG : tryMergeGroupsInternal fuel s ga gb enc mg with
            ⟨ok, s1, e1, m1⟩
          have h1 : s1.groups = s.groups := by
            have := ihG s ga gb enc mg
            rw [hG] at this; exact this
          try simp only [hG]
          cases ok
          · exact h1
          · exact (ihM s1 ma mb fa fb rest (acc ++ [(n, ga)]) e1 m1).trans h1
    · intro s pa pb enc mg
      cases pa with
      | nil => simp [mergeClosureParamsLoop]
      | cons p pr =>
        cases pb with
        | nil => simp [mergeClosureParamsLoop]
        | cons q qr =>
          simp only [mergeClosureParamsLoop]
          rcases hG : tryMergeGroupsInternal fuel s p q enc mg with
            ⟨ok, s1, e1, m1⟩
          have h1 : s1.groups = s.groups := by
            have := ihG s p q enc mg
            rw [hG] at this; exact this
          try simp only [hG]
          cases ok
          · exact h1
          · exact (ihC s1 pr qr e1 m1).trans h1

end Gerac

namespace Gerac

/-- Projection form of `groups_mergeAll` for the internal merge. -/
theorem tryMergeGroupsInternal_groups (fuel : Nat) (s : TypeScope)
    (a b : Nat) (enc : List Nat) (mg : List (Nat × Nat)) :
    (tryMergeGroupsInternal fuel s a b enc mg).2.1.groups = s.groups :=
  (groups_mergeAll fuel).1 s a b enc mg

/-- On success with empty `encountered`, the top-level pair is a member
of the returned `merged` set. -/
theorem tryMergeGroupsInternal_mem_merged (fuel : Nat) (s : TypeScope)
    (a b : Nat) (r : Bool × TypeScope × List Nat × List (Nat × Nat))
    (h : tryMergeGroupsInternal fuel s a b [] [] = r) (hr : r.1 = true) :
    (a, b) ∈ r.2.2.2 := by
  cases fuel with
  | zero =>
    rw [← h] at hr
    simp [tryMergeGroupsInternal] at hr
  | succ fuel =>
    rw [← h] at hr ⊢
    simp only [tryMergeGroupsInternal] at hr ⊢
    rcases hOut : mergeTypePairsOuter fuel s (s.group a) (s.group b) []
        ([] ++ [s.groupInternalId a, s.groupInternalId b]) [] with
      ⟨mt, s1, e2, m1⟩
    simp only [List.not_mem_nil, false_and, if_false, hOut] at hr ⊢
    by_cases hmt : mt = []
    · simp [hmt] at hr
    · simp only [if_neg hmt, insertUniq]
      split
      · rename_i hmem
        exact hmem
      · simp

/-- The alias-redirection loop preserves the length of the handle
table. -/
theorem applyMergedRedirects_length (l : List (Nat × Nat))
    (s : TypeScope) :
    (applyMergedRedirects s l).groups.length = s.groups.length := by
  induction l generalizing s with
  | nil => rfl
  | cons p rest ih =>
    rcases p with ⟨ga, gb⟩
    simp only [applyMergedRedirects]
    split
    · rw [ih]
      simp
    · rw [ih]

/-- The alias-redirection loop only rewrites the handle table. -/
theorem applyMergedRedirects_groupTypes (l : List (Nat × Nat))
    (s : TypeScope) :
    (applyMergedRedirects s l).groupTypes = s.groupTypes := by
  induction l generalizing s with
  | nil => rfl
  | cons p rest ih =>
    rcases p with ⟨ga, gb⟩
    simp only [applyMergedRedirects]
    split
    · rw [ih]
    · rw [ih]

/-- Reading a mapped handle table at an in-bounds index applies the
mapped function. -/
theorem getD_map_zero (l : List Nat) (f : Nat → Nat) (i : Nat)
    (hi : i < l.length) :
    (l.map f).getD i 0 = f (l.getD i 0) := by
  rw [List.getD_eq_getElem _ _ (by simpa using hi),
    List.getD_eq_getElem _ _ hi]
  simp

/-- A single redirection step preserves an equality of internal indices
between two in-bounds handles. -/
theorem redirect_step_preserves (s : TypeScope) (x y aInt bInt : Nat)
    (hx : x < s.groups.length) (hy : y < s.groups.length)
    (h : s.groupInternalId x = s.groupInternalId y) :
    ({ s with groups :=
        s.groups.map (fun i => if i = bInt then aInt else i)
      } : TypeScope).groupInternalId x
      = ({ s with groups :=
        s.groups.map (fun i => if i = bInt then aInt else i)
      } : TypeScope).groupInternalId y := by
  simp only [TypeScope.groupInternalId] at h ⊢
  rw [List.getD_eq_getElem _ _ (by simpa using hx),
    List.getD_eq_getElem _ _ (by simpa using hy)]
  rw [List.getD_eq_getElem _ _ hx, List.getD_eq_getElem _ _ hy] at h
  simp [h]

/-- The redirection loop preserves an equality of internal indices
between two in-bounds handles. -/
theorem applyMergedRedirects_preserves (l : List (Nat × Nat))
    (s : TypeScope) (x y : Nat)
    (hx : x < s.groups.length) (hy : y < s.groups.length)
    (h : s.groupInternalId x = s.groupInternalId y) :
    (applyMergedRedirects s l).groupInternalId x
      = (applyMergedRedirects s l).groupInternalId y := by
  induction l generalizing s with
  | nil => exact h
  | cons p rest ih =>
    rcases p with ⟨ga, gb⟩
    simp only [applyMergedRedirects]
    split
    · exact ih _ (by simpa using hx) (by simpa using hy)
        (redirect_step_preserves s x y _ _ hx hy h)
    · exact ih _ hx hy h

/-- After the redirection loop has processed a pair, the two handles of
that pair share one internal index. -/
theorem applyMergedRedirects_pair (l : List (Nat × Nat)) (s : TypeScope)
    (a b : Nat) (hx : a < s.groups.length) (hy : b < s.groups.length)
    (hmem : (a, b) ∈ l) :
    (applyMergedRedirects s l).groupInternalId a
      = (applyMergedRedirects s l).groupInternalId b := by
  induction l generalizing s with
  | nil => simp at hmem
  | cons p rest ih =>
    rcases p with ⟨ga, gb⟩
    rcases List.mem_cons.mp hmem with hp | hrest
    · -- this pair is (a, b): the step aligns them, the rest preserves it
      injection hp with h1 h2
      subst h1
      subst h2
      simp only [applyMergedRedirects]
      split
      · rename_i hne
        apply applyMergedRedirects_preserves rest _ a b
          (by simpa using hx) (by simpa using hy)
        simp only [TypeScope.groupInternalId] at hne ⊢
        rw [getD_map_zero _ _ _ hx, getD_map_zero _ _ _ hy]
        simp [hne]
      · rename_i heq
        simp only [ne_eq, not_not] at heq
        exact applyMergedRedirects_preserves rest _ a b hx hy heq
    · simp only [applyMergedRedirects]
      split
      · exact ih _ (by simpa using hx) (by simpa using hy) hrest
      · exact ih _ hx hy hrest

end Gerac

namespace Gerac

/-- C10: when `try_merge_groups(a, b)` fails, the handle-to-internal-
index mapping is unchanged: the `groups` table is exactly the one
before the call, every handle resolves to the same internal index as
before, and in particular no two handles that resolved to distinct
internal indices before the call share one afterwards (the alias
redirection loop runs only on overall success). -/
theorem claim_C10 (fuel : Nat) (s : TypeScope) (a b : Nat)
    (s' : TypeScope) (h : s.tryMergeGroups fuel a b = (false, s')) :
    s'.groups = s.groups ∧
    (∀ g, s'.groupInternalId g = s.groupInternalId g) ∧
    (∀ g g', s.groupInternalId g ≠ s.groupInternalId g' →
      s'.groupInternalId g ≠ s'.groupInternalId g') := by
  have hg : s'.groups = s.groups := by
    unfold TypeScope.tryMergeGroups at h
    rcases hI : tryMergeGroupsInternal fuel s a b [] [] with ⟨ok, s1, e1, m1⟩
    rw [hI] at h
    cases ok
    · have hs : s1 = s' := by injection h
      rw [← hs]
      have := tryMergeGroupsInternal_groups fuel s a b [] []
      rw [hI] at this
      exact this
    · exact absurd (congrArg Prod.fst h) (by simp)
  refine ⟨hg, ?_, ?_⟩
  · intro g
    simp [TypeScope.groupInternalId, hg]
  · intro g g' hne
    simpa [TypeScope.groupInternalId, hg] using hne

/-- Witness for C10 at a concrete failing merge. -/
theorem claim_C10_witness :
    (exFailScope.tryMergeGroups 10 0 1).2.groups = exFailScope.groups ∧
    (∀ g, (exFailScope.tryMergeGroups 10 0 1).2.groupInternalId g
      = exFailScope.groupInternalId g) ∧
    (∀ g g', exFailScope.groupInternalId g ≠ exFailScope.groupInternalId g' →
      (exFailScope.tryMergeGroups 10 0 1).2.groupInternalId g
        ≠ (exFailScope.tryMergeGroups 10 0 1).2.groupInternalId g') :=
  claim_C10 10 exFailScope 0 1 (exFailScope.tryMergeGroups 10 0 1).2 rfl

/-- C7: after a successful `try_merge_groups(a, b)` the two handles
resolve to one internal index, reads through either handle observe the
same possibility set, a later `set_group_types` through either handle
is observed through the other, and a freshly registered group never
shares an internal index with an existing handle (sharing an internal
index arises only from unification). -/
theorem claim_C7 (fuel : Nat) (s : TypeScope) (a b : Nat) (s₂ : TypeScope)
    (ha : a < s.groups.length) (hb : b < s.groups.length)
    (h : s.tryMergeGroups fuel a b = (true, s₂)) :
    s₂.groupInternalId a = s₂.groupInternalId b ∧
    s₂.group a = s₂.group b ∧
    (s₂.groupInternalId a < s₂.groupTypes.length →
      ∀ ts, (s₂.setGroupTypes a ts).group b = ts ∧
        (s₂.setGroupTypes b ts).group a = ts) ∧
    (∀ (t : TypeScope) (ts : List Ty) (g : Nat), g < t.groups.length →
      (∀ i ∈ t.groups, i < t.groupTypes.length) →
      (t.insertGroup ts).1.groupInternalId g ≠
        (t.insertGroup ts).1.groupInternalId (t.insertGroup ts).2) := by
  unfold TypeScope.tryMergeGroups at h
  rcases hI : tryMergeGroupsInternal fuel s a b [] [] with ⟨ok, s1, e1, m1⟩
  rw [hI] at h
  cases ok
  case false => exact absurd (congrArg Prod.fst h) (by simp)
  case true =>
  have hs2 : s₂ = applyMergedRedirects s1 m1 := by
    have := congrArg Prod.snd h
    simpa using this.symm
  have hmem : (a, b) ∈ m1 :=
    tryMergeGroupsInternal_mem_merged fuel s a b (true, s1, e1, m1) hI rfl
  have hlen : s1.groups = s.groups := by
    have := tryMergeGroupsInternal_groups fuel s a b [] []
    rw [hI] at this
    exact this
  have hid : s₂.groupInternalId a = s₂.groupInternalId b := by
    rw [hs2]
    exact applyMergedRedirects_pair m1 s1 a b (by rw [hlen]; exact ha)
      (by rw [hlen]; exact hb) hmem
  refine ⟨hid, ?_, ?_, ?_⟩
  · simp [TypeScope.group, hid]
  · intro hlt ts
    have hlt2 : s₂.groups.getD a 0 < s₂.groupTypes.length := hlt
    constructor
    · simp only [TypeScope.setGroupTypes, TypeScope.group,
        TypeScope.groupInternalId]
      have hba : s₂.groups.getD b 0 = s₂.groups.getD a 0 := hid.symm
      rw [hba]
      rw [List.getD_eq_getElem _ _ (by simpa using hlt2)]
      simp
    · simp only [TypeScope.setGroupTypes, TypeScope.group,
        TypeScope.groupInternalId]
      have hab : s₂.groups.getD a 0 = s₂.groups.getD b 0 := hid
      rw [← hab]
      rw [List.getD_eq_getElem _ _ (by simpa using hlt2)]
      simp
  · intro t ts g hg hwf
    simp only [TypeScope.insertGroup, TypeScope.groupInternalId]
    rw [List.getD_append _ _ _ _ hg]
    have h2 : (t.groups ++ [t.groupTypes.length]).getD t.groups.length 0
        = t.groupTypes.length := by
      rw [List.getD_append_right _ _ _ _ (le_refl _)]
      simp
    rw [h2]
    have : t.groups.getD g 0 ∈ t.groups := by
      rw [List.getD_eq_getElem _ _ hg]
      exact List.getElem_mem _
    exact Nat.ne_of_lt (hwf _ this)

/-- Witness for C7 at a concrete successful merge. -/
theorem claim_C7_witness :
    ((exArrScope.tryMergeGroups 10 0 1).2.groupInternalId 0
      = (exArrScope.tryMergeGroups 10 0 1).2.groupInternalId 1) ∧
    ((exArrScope.tryMergeGroups 10 0 1).2.group 0
      = (exArrScope.tryMergeGroups 10 0 1).2.group 1) ∧
    (((exArrScope.tryMergeGroups 10 0 1).2.groupInternalId 0
        < (exArrScope.tryMergeGroups 10 0 1).2.groupTypes.length) →
      ∀ ts, (((exArrScope.tryMergeGroups 10 0 1).2.setGroupTypes 0 ts).group 1
          = ts) ∧
        (((exArrScope.tryMergeGroups 10 0 1).2.setGroupTypes 1 ts).group 0
          = ts)) ∧
    (∀ (t : TypeScope) (ts : List Ty) (g : Nat), g < t.groups.length →
      (∀ i ∈ t.groups, i < t.groupTypes.length) →
      (t.insertGroup ts).1.groupInternalId g ≠
        (t.insertGroup ts).1.groupInternalId (t.insertGroup ts).2) :=
  claim_C7 10 exArrScope 0 1 (exArrScope.tryMergeGroups 10 0 1).2
    (by decide) (by decide) rfl

/-- C2 counterexample: merging an unconstrained group (`{Any}`) with
`{Integer}` succeeds and leaves both groups holding `{Integer}`, which
is not a subset of the first group's prior possibility set `{Any}`. -/
theorem claim_C2_counterexample :
    (exAnyIntScope.tryMergeGroups 10 0 1).1 = true ∧
    ¬ ((exAnyIntScope.tryMergeGroups 10 0 1).2.group 0
      ⊆ exAnyIntScope.group 0) := by
  constructor
  · rfl
  · decide

/-- C3 counterexample: merging two groups holding distinct array
constructors succeeds in both orders, but the resulting possibility
sets are `{Array(0)}` and `{Array(1)}` respectively — different sets of
constructor values, not reconcilable by reordering. -/
theorem claim_C3_counterexample :
    (exArrScope.tryMergeGroups 10 0 1).1 = true ∧
    (exArrScope.tryMergeGroups 10 1 0).1 = true ∧
    ¬ ((exArrScope.tryMergeGroups 10 0 1).2.group 0
        ⊆ (exArrScope.tryMergeGroups 10 1 0).2.group 0 ∧
      (exArrScope.tryMergeGroups 10 1 0).2.group 0
        ⊆ (exArrScope.tryMergeGroups 10 0 1).2.group 0) := by
  refine ⟨rfl, rfl, ?_⟩
  decide

end Gerac

namespace Gerac

/-- On non-structural constructors the type-level merge is `primMerge`
and leaves the state untouched. -/
theorem tryMergeTypesInternal_prim (fuel : Nat) (s : TypeScope)
    (ta tb : Ty) (enc : List Nat) (mg : List (Nat × Nat))
    (hta : ta.isPrimOrAny = true) (htb : tb.isPrimOrAny = true) :
    tryMergeTypesInternal (fuel + 1) s ta tb enc mg
      = (primMerge ta tb, s, enc, mg) := by
  cases ta <;> cases tb <;>
    simp_all [tryMergeTypesInternal, primMerge, Ty.isPrimOrAny, Ty.discrim]

/-- On non-structural constructors the inner cross-product loop
computes `primInnerAcc` and leaves the state untouched. -/
theorem mergeTypePairsInner_prim (bs : List Ty) :
    ∀ (fuel : Nat) (s : TypeScope) (ta : Ty) (acc : List Ty)
      (enc : List Nat) (mg : List (Nat × Nat)),
    bs.length + 1 ≤ fuel → ta.isPrimOrAny = true →
    (∀ t ∈ bs, t.isPrimOrAny = true) →
    mergeTypePairsInner fuel s ta bs acc enc mg
      = (primInnerAcc ta bs acc, s, enc, mg) := by
  induction bs with
  | nil =>
    intro fuel s ta acc enc mg hf _ _
    cases fuel with
    | zero => omega
    | succ fuel => simp [mergeTypePairsInner, primInnerAcc]
  | cons tb rest ih =>
    intro fuel s ta acc enc mg hf hta hbs
    cases fuel with
    | zero => omega
    | succ fuel =>
      cases fuel with
      | zero => simp at hf
      | succ fuel =>
        simp only [mergeTypePairsInner]
        rw [tryMergeTypesInternal_prim fuel s ta tb enc mg hta
          (hbs tb (by simp))]
        simp only [primInnerAcc]
        exact ih (fuel + 1) s ta _ enc mg (by simp at hf ⊢; omega) hta
          (fun t ht => hbs t (by simp [ht]))

/-- On non-structural constructors the outer cross-product loop
computes `primOuterAcc` and leaves the state untouched. -/
theorem mergeTypePairsOuter_prim (as : List Ty) :
    ∀ (fuel : Nat) (s : TypeScope) (bs acc : List Ty)
      (enc : List Nat) (mg : List (Nat × Nat)),
    as.length + bs.length + 1 ≤ fuel →
    (∀ t ∈ as, t.isPrimOrAny = true) →
    (∀ t ∈ bs, t.isPrimOrAny = true) →
    mergeTypePairsOuter fuel s as bs acc enc mg
      = (primOuterAcc as bs acc, s, enc, mg) := by
  induction as with
  | nil =>
    intro fuel s bs acc enc mg hf _ _
    cases fuel with
    | zero => omega
    | succ fuel => simp [mergeTypePairsOuter, primOuterAcc]
  | cons ta arest ih =>
    intro fuel s bs acc enc mg hf has hbs
    cases fuel with
    | zero => omega
    | succ fuel =>
      simp only [mergeTypePairsOuter]
      rw [mergeTypePairsInner_prim bs fuel s ta acc enc mg
        (by simp at hf ⊢; omega) (has ta (by simp))
        hbs]
      simp only [primOuterAcc]
      exact ih fuel s bs _ enc mg (by simp at hf ⊢; omega)
        (fun t ht => has t (by simp [ht])) hbs

/-- Membership in the inner accumulator. -/
theorem mem_primInnerAcc (t : Ty) (ta : Ty) (bs : List Ty) :
    ∀ acc, t ∈ primInnerAcc ta bs acc ↔
      t ∈ acc ∨ ∃ tb ∈ bs, primMerge ta tb = some t := by
  induction bs with
  | nil => intro acc; simp [primInnerAcc]
  | cons tb rest ih =>
    intro acc
    simp only [primInnerAcc]
    rcases hm : primMerge ta tb with _ | u
    · rw [ih acc]
      constructor
      · rintro (h | ⟨v, hv, he⟩)
        · exact Or.inl h
        · exact Or.inr ⟨v, by simp [hv], he⟩
      · rintro (h | ⟨v, hv, he⟩)
        · exact Or.inl h
        · rcases List.mem_cons.mp hv with rfl | hv2
          · rw [hm] at he; cases he
          · exact Or.inr ⟨v, hv2, he⟩
    · rw [ih _]
      simp only [insertUniq]
      constructor
      · rintro (h | ⟨v, hv, he⟩)
        · split at h
          · exact Or.inl h
          · rcases List.mem_append.mp h with h2 | h2
            · exact Or.inl h2
            · simp at h2
              subst h2
              exact Or.inr ⟨tb, by simp, hm⟩
        · exact Or.inr ⟨v, by simp [hv], he⟩
      · rintro (h | ⟨v, hv, he⟩)
        · split
          · exact Or.inl h
          · exact Or.inl (List.mem_append.mpr (Or.inl h))
        · rcases List.mem_cons.mp hv with rfl | hv2
          · rw [hm] at he
            injection he with he
            subst he
            left
            split
            · assumption
            · simp
          · exact Or.inr ⟨v, hv2, he⟩

/-- Membership in the outer accumulator. -/
theorem mem_primOuterAcc (t : Ty) (as : List Ty) (bs : List Ty) :
    ∀ acc, t ∈ primOuterAcc as bs acc ↔
      t ∈ acc ∨ ∃ ta ∈ as, ∃ tb ∈ bs, primMerge ta tb = some t := by
  induction as with
  | nil => intro acc; simp [primOuterAcc]
  | cons ta arest ih =>
    intro acc
    simp only [primOuterAcc]
    rw [ih _, mem_primInnerAcc]
    constructor
    · rintro ((h | ⟨tb, htb, he⟩) | ⟨u, hu, tb, htb, he⟩)
      · exact Or.inl h
      · exact Or.inr ⟨ta, by simp, tb, htb, he⟩
      · exact Or.inr ⟨u, by simp [hu], tb, htb, he⟩
    · rintro (h | ⟨u, hu, tb, htb, he⟩)
      · exact Or.inl (Or.inl h)
      · rcases List.mem_cons.mp hu with rfl | hu2
        · exact Or.inl (Or.inr ⟨tb, htb, he⟩)
        · exact Or.inr ⟨u, hu2, tb, htb, he⟩

/-- `primMerge` succeeds with the same result in both orders. -/
theorem primMerge_symm (x y : Ty) (t : Ty) :
    primMerge x y = some t ↔ primMerge y x = some t := by
  cases x <;> cases y <;> simp_all [primMerge, eq_comm]

end Gerac

namespace Gerac

/-- Characterization of the internal merge on two groups whose
possibility sets hold only non-structural constructors: the result is
the cross-product accumulator, written into both internal indices on
success, with no other state change. -/
theorem tryMergeGroupsInternal_prim (fuel : Nat) (s : TypeScope)
    (a b : Nat)
    (hf : (s.group a).length + (s.group b).length + 2 ≤ fuel)
    (hA : ∀ t ∈ s.group a, t.isPrimOrAny = true)
    (hB : ∀ t ∈ s.group b, t.isPrimOrAny = true) :
    tryMergeGroupsInternal fuel s a b [] [] =
      (if primOuterAcc (s.group a) (s.group b) [] = []
        then (false, s, [s.groupInternalId a, s.groupInternalId b], [])
        else (true,
          { s with groupTypes :=
              ((s.groupTypes.set (s.groupInternalId a)
                (primOuterAcc (s.group a) (s.group b) [])).set
                (s.groupInternalId b)
                (primOuterAcc (s.group a) (s.group b) [])) },
          [], [(a, b)])) := by
  cases fuel with
  | zero => omega
  | succ fuel =>
    simp only [tryMergeGroupsInternal]
    rw [if_neg (by simp)]
    rw [mergeTypePairsOuter_prim (s.group a) fuel s (s.group b) []
      ([] ++ [s.groupInternalId a, s.groupInternalId b]) [] (by omega) hA hB]
    by_cases hMe : primOuterAcc (s.group a) (s.group b) [] = []
    · simp [hMe]
    · simp [hMe, insertUniq]

/-- A group handle whose possibility set is nonempty has an in-bounds
internal index. -/
theorem group_nonempty_internal_lt (s : TypeScope) (a : Nat)
    (h : s.group a ≠ []) :
    s.groupInternalId a < s.groupTypes.length := by
  by_contra hlt
  apply h
  simp only [TypeScope.group]
  exact List.getD_eq_default _ _ (by omega)

/-- Reads after redirecting a single merged pair: both handles read
what the left handle read before, provided both handles read the same
set before the redirection. -/
theorem applyMergedRedirects_single_group (s2 : TypeScope) (a b : Nat)
    (ha : a < s2.groups.length) (hb : b < s2.groups.length)
    (hq : s2.group a = s2.group b) :
    (applyMergedRedirects s2 [(a, b)]).group a = s2.group a ∧
    (applyMergedRedirects s2 [(a, b)]).group b = s2.group a := by
  simp only [applyMergedRedirects]
  split
  · rename_i hne
    constructor
    · simp only [TypeScope.group, TypeScope.groupInternalId]
      rw [getD_map_zero _ _ _ ha]
      rw [ite_self]
    · simp only [TypeScope.group, TypeScope.groupInternalId]
      rw [getD_map_zero _ _ _ hb]
      simp
  · rename_i heq
    simp only [ne_eq, not_not] at heq
    refine ⟨rfl, ?_⟩
    exact hq.symm

/-- Resulting possibility sets of a successful `try_merge_groups` on
two non-structural groups: both handles read the cross-product
accumulator afterwards. -/
theorem tryMergeGroups_prim_group (fuel : Nat) (s : TypeScope) (a b : Nat)
    (ha : a < s.groups.length) (hb : b < s.groups.length)
    (hf : (s.group a).length + (s.group b).length + 2 ≤ fuel)
    (hA : ∀ t ∈ s.group a, t.isPrimOrAny = true)
    (hB : ∀ t ∈ s.group b, t.isPrimOrAny = true)
    (hsucc : (s.tryMergeGroups fuel a b).1 = true) :
    (s.tryMergeGroups fuel a b).2.group a
        = primOuterAcc (s.group a) (s.group b) [] ∧
      (s.tryMergeGroups fuel a b).2.group b
        = primOuterAcc (s.group a) (s.group b) [] := by
  have hchar := tryMergeGroupsInternal_prim fuel s a b hf hA hB
  by_cases hMe : primOuterAcc (s.group a) (s.group b) [] = []
  · exfalso
    unfold TypeScope.tryMergeGroups at hsucc
    rw [hchar, if_pos hMe] at hsucc
    simp at hsucc
  -- the merged accumulator is nonempty, hence both groups are nonempty
  have hAne : s.group a ≠ [] := by
    intro hemp
    apply hMe
    rcases List.eq_nil_or_concat (primOuterAcc (s.group a) (s.group b) [])
      with h0 | ⟨l2, t, hcat⟩
    · exact h0
    · exfalso
      have hmem : t ∈ primOuterAcc (s.group a) (s.group b) [] := by
        rw [hcat]; simp
      rcases (mem_primOuterAcc t _ _ _).mp hmem with h | ⟨ta, hta, _⟩
      · simp at h
      · rw [hemp] at hta; simp at hta
  have hBne : s.group b ≠ [] := by
    intro hemp
    apply hMe
    rcases List.eq_nil_or_concat (primOuterAcc (s.group a) (s.group b) [])
      with h0 | ⟨l2, t, hcat⟩
    · exact h0
    · exfalso
      have hmem : t ∈ primOuterAcc (s.group a) (s.group b) [] := by
        rw [hcat]; simp
      rcases (mem_primOuterAcc t _ _ _).mp hmem with h | ⟨ta, _, tb, htb, _⟩
      · simp at h
      · rw [hemp] at htb; simp at htb
  have hia : s.groupInternalId a < s.groupTypes.length :=
    group_nonempty_internal_lt s a hAne
  have hib : s.groupInternalId b < s.groupTypes.length :=
    group_nonempty_internal_lt s b hBne
  unfold TypeScope.tryMergeGroups
  rw [hchar, if_neg hMe]
  have hia2 : s.groups.getD a 0 < s.groupTypes.length := hia
  have hib2 : s.groups.getD b 0 < s.groupTypes.length := hib
  have hsa : ({ s with groupTypes :=
      ((s.groupTypes.set (s.groupInternalId a)
        (primOuterAcc (s.group a) (s.group b) [])).set
        (s.groupInternalId b)
        (primOuterAcc (s.group a) (s.group b) [])) } : TypeScope).group a
      = primOuterAcc (s.group a) (s.group b) [] := by
    show ((s.groupTypes.set (s.groups.getD a 0)
        (primOuterAcc (s.group a) (s.group b) [])).set
        (s.groups.getD b 0)
        (primOuterAcc (s.group a) (s.group b) [])).getD
        (s.groups.getD a 0) []
      = primOuterAcc (s.group a) (s.group b) []
    by_cases hei : s.groups.getD b 0 = s.groups.getD a 0
    · rw [hei, List.getD_eq_getElem _ _ (by simpa using hia2)]
      simp [List.getElem_set]
    · rw [List.getD_eq_getElem _ _ (by simpa using hia2),
        List.getElem_set_ne hei]
      simp [List.getElem_set]
  have hsb : ({ s with groupTypes :=
      ((s.groupTypes.set (s.groupInternalId a)
        (primOuterAcc (s.group a) (s.group b) [])).set
        (s.groupInternalId b)
        (primOuterAcc (s.group a) (s.group b) [])) } : TypeScope).group b
      = primOuterAcc (s.group a) (s.group b) [] := by
    show ((s.groupTypes.set (s.groups.getD a 0)
        (primOuterAcc (s.group a) (s.group b) [])).set
        (s.groups.getD b 0)
        (primOuterAcc (s.group a) (s.group b) [])).getD
        (s.groups.getD b 0) []
      = primOuterAcc (s.group a) (s.group b) []
    rw [List.getD_eq_getElem _ _ (by simpa using hib2)]
    simp [List.getElem_set]
  have hmain := applyMergedRedirects_single_group _ a b
    (by exact ha) (by exact hb) (hsa.trans hsb.symm)
  exact ⟨hmain.1.trans hsa, hmain.2.trans hsa⟩

end Gerac

namespace Gerac

/-- A primitive constructor is in particular non-structural. -/
theorem isPrim_isPrimOrAny (t : Ty) (h : t.isPrim = true) :
    t.isPrimOrAny = true := by
  cases t <;> simp_all [Ty.isPrim, Ty.isPrimOrAny]

/-- On primitives (no `Any`), `primMerge` succeeds exactly on equal
constructors and returns that constructor. -/
theorem primMerge_prim (ta tb t : Ty) (hta : ta.isPrim = true)
    (htb : tb.isPrim = true) (h : primMerge ta tb = some t) :
    ta = t ∧ tb = t := by
  cases ta <;> cases tb <;> simp_all [primMerge, Ty.isPrim]

/-- C2 (amended): when both groups' possibility sets hold only
primitive constructors (no `Any`, no structural constructors), a
successful `try_merge_groups` narrows both handles to a set that is a
subset of each input's prior possibility set.  (With `Any` present the
result is the other side's set, and structural constructors are
re-inserted under fresh indices, so the literal subset claim fails;
see the counterexample.) -/
theorem claim_C2 (fuel : Nat) (s : TypeScope) (a b : Nat)
    (ha : a < s.groups.length) (hb : b < s.groups.length)
    (hf : (s.group a).length + (s.group b).length + 2 ≤ fuel)
    (hA : ∀ t ∈ s.group a, t.isPrim = true)
    (hB : ∀ t ∈ s.group b, t.isPrim = true)
    (hsucc : (s.tryMergeGroups fuel a b).1 = true) :
    (s.tryMergeGroups fuel a b).2.group a ⊆ s.group a ∧
    (s.tryMergeGroups fuel a b).2.group a ⊆ s.group b ∧
    (s.tryMergeGroups fuel a b).2.group b ⊆ s.group a ∧
    (s.tryMergeGroups fuel a b).2.group b ⊆ s.group b := by
  have hA2 : ∀ t ∈ s.group a, t.isPrimOrAny = true := fun t ht =>
    isPrim_isPrimOrAny t (hA t ht)
  have hB2 : ∀ t ∈ s.group b, t.isPrimOrAny = true := fun t ht =>
    isPrim_isPrimOrAny t (hB t ht)
  have hgrp := tryMergeGroups_prim_group fuel s a b ha hb hf hA2 hB2 hsucc
  have hsub : primOuterAcc (s.group a) (s.group b) [] ⊆ s.group a ∧
      primOuterAcc (s.group a) (s.group b) [] ⊆ s.group b := by
    constructor <;> intro t ht <;>
      rcases (mem_primOuterAcc t _ _ _).mp ht with h0 | ⟨ta, hta, tb, htb, he⟩
    · simp at h0
    · obtain ⟨h1, _⟩ := primMerge_prim ta tb t (hA ta hta) (hB tb htb) he
      rw [← h1]; exact hta
    · simp at h0
    · obtain ⟨_, h2⟩ := primMerge_prim ta tb t (hA ta hta) (hB tb htb) he
      rw [← h2]; exact htb
  rw [hgrp.1, hgrp.2]
  exact ⟨hsub.1, hsub.2, hsub.1, hsub.2⟩

/-- Witness for C2 (amended) at a concrete primitive merge. -/
theorem claim_C2_witness :
    (exPrimScope.tryMergeGroups 10 0 1).2.group 0 ⊆ exPrimScope.group 0 ∧
    (exPrimScope.tryMergeGroups 10 0 1).2.group 0 ⊆ exPrimScope.group 1 ∧
    (exPrimScope.tryMergeGroups 10 0 1).2.group 1 ⊆ exPrimScope.group 0 ∧
    (exPrimScope.tryMergeGroups 10 0 1).2.group 1 ⊆ exPrimScope.group 1 :=
  claim_C2 10 exPrimScope 0 1 (by decide) (by decide) (by decide)
    (by decide) (by decide) (by decide)

/-- Emptiness of the cross-product accumulator is order-independent. -/
theorem primOuterAcc_nil_symm (A B : List Ty) :
    primOuterAcc A B [] = [] ↔ primOuterAcc B A [] = [] := by
  simp only [List.eq_nil_iff_forall_not_mem]
  constructor <;> intro h t ht
  · rcases (mem_primOuterAcc t _ _ _).mp ht with h0 | ⟨ta, hta, tb, htb, he⟩
    · simp at h0
    · exact h t ((mem_primOuterAcc t _ _ _).mpr
        (Or.inr ⟨tb, htb, ta, hta, (primMerge_symm ta tb t).mp he⟩))
  · rcases (mem_primOuterAcc t _ _ _).mp ht with h0 | ⟨ta, hta, tb, htb, he⟩
    · simp at h0
    · exact h t ((mem_primOuterAcc t _ _ _).mpr
        (Or.inr ⟨tb, htb, ta, hta, (primMerge_symm ta tb t).mp he⟩))

/-- The success flag of a non-structural merge is the non-emptiness of
the cross-product accumulator. -/
theorem tryMergeGroups_prim_fst (fuel : Nat) (s : TypeScope) (a b : Nat)
    (hf : (s.group a).length + (s.group b).length + 2 ≤ fuel)
    (hA : ∀ t ∈ s.group a, t.isPrimOrAny = true)
    (hB : ∀ t ∈ s.group b, t.isPrimOrAny = true) :
    (s.tryMergeGroups fuel a b).1
      = !(primOuterAcc (s.group a) (s.group b) []).isEmpty := by
  unfold TypeScope.tryMergeGroups
  rw [tryMergeGroupsInternal_prim fuel s a b hf hA hB]
  by_cases hMe : primOuterAcc (s.group a) (s.group b) [] = []
  · rw [if_pos hMe, hMe]
    rfl
  · rw [if_neg hMe]
    rcases hne : primOuterAcc (s.group a) (s.group b) [] with _ | ⟨u, l⟩
    · exact absurd hne hMe
    · rfl

/-- C3 (amended): for groups whose possibility sets hold only `Any`
and primitive constructors, `try_merge_groups` succeeds in one order
iff it succeeds in the other, and on success the resulting possibility
sets agree as sets in both orders.  (For groups involving structural
constructors no symmetry is asserted: fresh side-table indices differ
between the two orders, so even when both orders succeed the resulting
sets are only structurally equivalent, not equal; see the
counterexample.) -/
theorem claim_C3 (fuel : Nat) (s : TypeScope) (a b : Nat)
    (ha : a < s.groups.length) (hb : b < s.groups.length)
    (hf : (s.group a).length + (s.group b).length + 2 ≤ fuel)
    (hA : ∀ t ∈ s.group a, t.isPrimOrAny = true)
    (hB : ∀ t ∈ s.group b, t.isPrimOrAny = true) :
    ((s.tryMergeGroups fuel a b).1 = (s.tryMergeGroups fuel b a).1) ∧
    ((s.tryMergeGroups fuel a b).1 = true →
      ∀ t : Ty,
        (t ∈ (s.tryMergeGroups fuel a b).2.group a ↔
          t ∈ (s.tryMergeGroups fuel b a).2.group a) ∧
        (t ∈ (s.tryMergeGroups fuel a b).2.group b ↔
          t ∈ (s.tryMergeGroups fuel b a).2.group b)) := by
  have hf2 : (s.group b).length + (s.group a).length + 2 ≤ fuel := by omega
  have hmemiff : ∀ t : Ty,
      t ∈ primOuterAcc (s.group a) (s.group b) [] ↔
        t ∈ primOuterAcc (s.group b) (s.group a) [] := by
    intro t
    rw [mem_primOuterAcc, mem_primOuterAcc]
    constructor
    · rintro (h0 | ⟨ta, hta, tb, htb, he⟩)
      · simp at h0
      · exact Or.inr ⟨tb, htb, ta, hta, (primMerge_symm ta tb t).mp he⟩
    · rintro (h0 | ⟨ta, hta, tb, htb, he⟩)
      · simp at h0
      · exact Or.inr ⟨tb, htb, ta, hta, (primMerge_symm ta tb t).mp he⟩
  constructor
  · rw [tryMergeGroups_prim_fst fuel s a b hf hA hB,
      tryMergeGroups_prim_fst fuel s b a hf2 hB hA]
    by_cases hMe : primOuterAcc (s.group a) (s.group b) [] = []
    · rw [hMe, (primOuterAcc_nil_symm _ _).mp hMe]
    · have hMe2 : primOuterAcc (s.group b) (s.group a) [] ≠ [] := by
        intro hx
        exact hMe ((primOuterAcc_nil_symm _ _).mpr hx)
      rcases h1 : primOuterAcc (s.group a) (s.group b) [] with _ | ⟨u, l⟩
      · exact absurd h1 hMe
      · rcases h2 : primOuterAcc (s.group b) (s.group a) [] with _ | ⟨v, l2⟩
        · exact absurd h2 hMe2
        · rfl
  · intro hsucc t
    have hsucc2 : (s.tryMergeGroups fuel b a).1 = true := by
      rw [tryMergeGroups_prim_fst fuel s b a hf2 hB hA]
      rw [tryMergeGroups_prim_fst fuel s a b hf hA hB] at hsucc
      rcases h2 : primOuterAcc (s.group b) (s.group a) [] with _ | ⟨v, l2⟩
      · rw [(primOuterAcc_nil_symm _ _).mpr h2] at hsucc
        simp at hsucc
      · rfl
    have hg1 := tryMergeGroups_prim_group fuel s a b ha hb hf hA hB hsucc
    have hg2 := tryMergeGroups_prim_group fuel s b a hb ha hf2 hB hA hsucc2
    rw [hg1.1, hg1.2, hg2.1, hg2.2]
    exact ⟨hmemiff t, hmemiff t⟩

/-- Witness for C3 (amended) at a concrete merge of an unconstrained
group against a primitive set. -/
theorem claim_C3_witness :
    ((exAnyMixScope.tryMergeGroups 10 0 1).1
      = (exAnyMixScope.tryMergeGroups 10 1 0).1) ∧
    ((exAnyMixScope.tryMergeGroups 10 0 1).1 = true →
      ∀ t : Ty,
        (t ∈ (exAnyMixScope.tryMergeGroups 10 0 1).2.group 0 ↔
          t ∈ (exAnyMixScope.tryMergeGroups 10 1 0).2.group 0) ∧
        (t ∈ (exAnyMixScope.tryMergeGroups 10 0 1).2.group 1 ↔
          t ∈ (exAnyMixScope.tryMergeGroups 10 1 0).2.group 1)) :=
  claim_C3 10 exAnyMixScope 0 1 (by decide) (by decide) (by decide)
    (by decide) (by decide)

end Gerac

namespace Gerac

/-- A lookup succeeds exactly on the stored keys. -/
theorem alookup_isSome_iff {α : Type} (l : List (Nat × α)) (n : Nat) :
    (alookup l n).isSome ↔ n ∈ l.map Prod.fst := by
  induction l with
  | nil => simp [alookup]
  | cons p rest ih =>
    rcases p with ⟨k, v⟩
    simp only [alookup, List.map_cons, List.mem_cons]
    by_cases hk : k = n
    · simp [hk]
    · simp [hk, ih, Ne.symm hk]

end Gerac

namespace Gerac

end Gerac

namespace Gerac

end Gerac

namespace Gerac.SrcVariant

/-- C8: in the parameter loop of the closure-vs-closure arm of
`types_limited` in the `src/` variant, once the fresh parameter group
is resolved, a successful `limit_possible_types` against either side's
parameter types makes the limiter return `None`, and the loop proceeds
past the parameter exactly when both limits fail; moreover a `None`
from the loop makes `types_limited` on two closures of matching arity
return `None`. -/
theorem claim_C8 (fuel : Nat) (aScope bScope : SScope) (ap bp : Nat)
    (ar br : List Nat) (ns : SScope) (aMap bMap : List (Nat × Nat))
    (acc : List Nat) (ns1 : SScope) (n : Nat)
    (aMap1 bMap1 : List (Nat × Nat))
    (hres : resolveParamGroup ns aMap bMap ap bp
      = some (ns1, n, aMap1, bMap1)) :
    (∀ pt ns2,
      limitPossibleTypes fuel ns1 (.ofGroup n) (aScope.getGroupTypes ap)
        = (.ok pt, ns2) →
      closureParamsLoopS (fuel + 1) aScope bScope (ap :: ar) (bp :: br)
        ns aMap bMap acc = none) ∧
    (∀ e ns2 pt ns3,
      limitPossibleTypes fuel ns1 (.ofGroup n) (aScope.getGroupTypes ap)
        = (.error e, ns2) →
      limitPossibleTypes fuel ns2 (.ofGroup n) (bScope.getGroupTypes bp)
        = (.ok pt, ns3) →
      closureParamsLoopS (fuel + 1) aScope bScope (ap :: ar) (bp :: br)
        ns aMap bMap acc = none) ∧
    (∀ e ns2 e2 ns3,
      limitPossibleTypes fuel ns1 (.ofGroup n) (aScope.getGroupTypes ap)
        = (.error e, ns2) →
      limitPossibleTypes fuel ns2 (.ofGroup n) (bScope.getGroupTypes bp)
        = (.error e2, ns3) →
      closureParamsLoopS (fuel + 1) aScope bScope (ap :: ar) (bp :: br)
        ns aMap bMap acc
        = closureParamsLoopS fuel aScope bScope ar br ns3 aMap1 bMap1
          (acc ++ [n])) ∧
    (∀ (s : SScope) (aS bS : SScope) (aP bP : List Nat) (aR bR : PT),
      aP.length = bP.length →
      closureParamsLoopS fuel aS bS aP bP SScope.new [] [] [] = none →
      (typesLimited (fuel + 1) s (.closure aS aP aR) (.closure bS bP bR)).1
        = none) := by
  refine ⟨?_, ?_, ?_, ?_⟩
  · intro pt ns2 hA
    simp only [closureParamsLoopS, hres, hA]
  · intro e ns2 pt ns3 hA hB
    simp only [closureParamsLoopS, hres, hA, hB]
  · intro e ns2 e2 ns3 hA hB
    simp only [closureParamsLoopS, hres, hA, hB]
  · intro s aS bS aP bP aR bR hlen hloop
    simp only [typesLimited]
    rw [if_neg (by simpa using congrArg (fun x => x) hlen ▸ (by simp [hlen]))]
    rw [hloop]

end Gerac.SrcVariant

namespace Gerac.SrcVariant

/-- Witness for C8: with one fresh parameter pair the first limit
succeeds, so the loop (and hence the closure limiter) yields `None`. -/
theorem claim_C8_witness :
    closureParamsLoopS 6 exS exS [0] [0] SScope.new [] [] [] = none :=
  (claim_C8 5 exS exS 0 0 [] [] SScope.new [] [] []
    (SScope.new.registerVariable).1 0 [(0, 0)] [(0, 0)] rfl).1
    (.ofGroup 0) (SScope.new.registerVariable).1 rfl

end Gerac.SrcVariant

namespace Gerac.Check

/-- C9 counterexample: the 27th label (index 26) produced by
`choose_letter` is `"AB"`, not `"AA"`: the loop emits base-26 digits
least-significant first and never produces `"AA"`. -/
theorem claim_C9_counterexample :
    chooseLetter 26 = "AB" ∧ chooseLetter 26 ≠ "AA" := by
  constructor
  · simp [chooseLetter, chooseLetterChars, LETTERS]
  · simp [chooseLetter, chooseLetterChars, LETTERS]

/-- `choose_letter` always emits at least one character. -/
theorem chooseLetterChars_ne_nil (i : Nat) : chooseLetterChars i ≠ [] := by
  unfold chooseLetterChars
  dsimp only
  split <;> simp

/-- A letter index below 26 reads the letter table; the table holds `'A'`
only at index 0. -/
theorem LETTERS_getD_A (m : Nat) (hm : m < 26)
    (h : LETTERS.getD m 'A' = 'A') : m = 0 := by
  revert h
  revert hm
  revert m
  decide

/-- `choose_letter` never emits `"AA"`. -/
theorem chooseLetter_ne_AA (i : Nat) : chooseLetter i ≠ "AA" := by
  intro h
  have hchars : chooseLetterChars i = ['A', 'A'] := by
    have := congrArg String.data h
    simpa [chooseLetter] using this
  rw [chooseLetterChars] at hchars
  split at hchars
  · simp at hchars
  · rename_i h0
    simp only [List.cons.injEq] at hchars
    obtain ⟨hc1, hrest⟩ := hchars
    rw [chooseLetterChars] at hrest
    split at hrest
    · rename_i h1
      simp only [List.cons.injEq] at hrest
      obtain ⟨hc2, -⟩ := hrest
      have hm : (i / 26) % 26 = 0 :=
        LETTERS_getD_A _ (Nat.mod_lt _ (by omega)) hc2
      have := Nat.div_add_mod (i / 26) 26
      omega
    · simp only [List.cons.injEq] at hrest
      exact chooseLetterChars_ne_nil _ hrest.2

/-- A lookup hit names a stored entry. -/
theorem alookup_mem {α : Type} (l : List (Nat × α)) (k : Nat) (v : α)
    (h : alookup l k = some v) : (k, v) ∈ l := by
  induction l with
  | nil => simp [alookup] at h
  | cons p rest ih =>
    rcases p with ⟨k0, v0⟩
    simp only [alookup] at h
    by_cases hk : k0 = k
    · rw [if_pos hk] at h
      injection h with h
      subst h
      subst hk
      simp
    · rw [if_neg hk] at h
      exact List.mem_cons.mpr (Or.inr (ih h))

/-- Members of an updated association list are old entries or the new
one. -/
theorem mem_aupdate {α : Type} (l : List (Nat × α)) (k : Nat) (v : α)
    (e : Nat × α) (h : e ∈ aupdate l k v) : e ∈ l ∨ e = (k, v) := by
  induction l with
  | nil => simpa [aupdate] using h
  | cons p rest ih =>
    rcases p with ⟨k0, v0⟩
    simp only [aupdate] at h
    by_cases hk : k0 = k
    · rw [if_pos hk] at h
      rcases List.mem_cons.mp h with rfl | h2
      · exact Or.inr (by rw [hk])
      · exact Or.inl (List.mem_cons.mpr (Or.inr h2))
    · rw [if_neg hk] at h
      rcases List.mem_cons.mp h with rfl | h2
      · exact Or.inl (by simp)
      · rcases ih h2 with h3 | h3
        · exact Or.inl (List.mem_cons.mpr (Or.inr h3))
        · exact Or.inr h3

/-- Every label stored by the letter-collection pass comes from the
`choose_letter` sequence. -/
theorem collectLetters_labels : ∀ fuel : Nat,
    (∀ (sc : DisplayScope) (g : Nat) (letters : List (Nat × String × Nat)),
      (∀ e ∈ letters, ∃ j, e.2.1 = chooseLetter j) →
      ∀ e ∈ collectLetters fuel sc g letters, ∃ j, e.2.1 = chooseLetter j) ∧
    (∀ (sc : DisplayScope) (o : Option (List Ty9))
      (letters : List (Nat × String × Nat)),
      (∀ e ∈ letters, ∃ j, e.2.1 = chooseLetter j) →
      ∀ e ∈ collectLettersGroup fuel sc o letters,
        ∃ j, e.2.1 = chooseLetter j) ∧
    (∀ (sc : DisplayScope) (ts : List Ty9)
      (letters : List (Nat × String × Nat)),
      (∀ e ∈ letters, ∃ j, e.2.1 = chooseLetter j) →
      ∀ e ∈ collectTypeLettersList fuel sc ts letters,
        ∃ j, e.2.1 = chooseLetter j) ∧
    (∀ (sc : DisplayScope) (t : Ty9)
      (letters : List (Nat × String × Nat)),
      (∀ e ∈ letters, ∃ j, e.2.1 = chooseLetter j) →
      ∀ e ∈ collectTypeLetters fuel sc t letters,
        ∃ j, e.2.1 = chooseLetter j) ∧
    (∀ (sc : DisplayScope) (ms : List (Nat × Nat))
      (letters : List (Nat × String × Nat)),
      (∀ e ∈ letters, ∃ j, e.2.1 = chooseLetter j) →
      ∀ e ∈ collectLettersPairList fuel sc ms letters,
        ∃ j, e.2.1 = chooseLetter j) ∧
    (∀ (sc : DisplayScope) (ms : List (Nat × Ty9))
      (letters : List (Nat × String × Nat)),
      (∀ e ∈ letters, ∃ j, e.2.1 = chooseLetter j) →
      ∀ e ∈ collectTypeLettersPairList fuel sc ms letters,
        ∃ j, e.2.1 = chooseLetter j) ∧
    (∀ (sc : DisplayScope) (gs : List Nat)
      (letters : List (Nat × String × Nat)),
      (∀ e ∈ letters, ∃ j, e.2.1 = chooseLetter j) →
      ∀ e ∈ collectLettersNatList fuel sc gs letters,
        ∃ j, e.2.1 = chooseLetter j) := by
  intro fuel
  induction fuel with
  | zero =>
    refine ⟨?_, ?_, ?_, ?_, ?_, ?_, ?_⟩ <;>
      intro sc x letters hinv e he <;> exact hinv e he
  | succ fuel ih =>
    obtain ⟨ihL, ihG, ihTL, ihT, ihP, ihTP, ihN⟩ := ih
    refine ⟨?_, ?_, ?_, ?_, ?_, ?_, ?_⟩
    · intro sc g letters hinv e he
      simp only [collectLetters] at he
      rcases hl : alookup letters (sc.getGroupInternalIndex g) with
        _ | ⟨ltr, usages⟩ <;> rw [hl] at he
      · refine ihG sc _ _ ?_ e he
        intro e2 he2
        rcases List.mem_append.mp he2 with h2 | h2
        · exact hinv e2 h2
        · simp at h2
          subst h2
          exact ⟨letters.length, rfl⟩
      · have hinv2 : ∀ e2 ∈ aupdate letters (sc.getGroupInternalIndex g)
            (ltr, usages + 1), ∃ j, e2.2.1 = chooseLetter j := by
          intro e2 he2
          rcases mem_aupdate _ _ _ _ he2 with h2 | h2
          · exact hinv e2 h2
          · subst h2
            obtain ⟨j, hj⟩ := hinv _ (alookup_mem letters
              (sc.getGroupInternalIndex g) (ltr, usages) hl)
            exact ⟨j, hj⟩
        simp only [] at he
        split at he
        · exact hinv2 e he
        · exact ihG sc _ _ hinv2 e he
    · intro sc o letters hinv e he
      simp only [collectLettersGroup] at he
      cases o with
      | none => exact hinv e he
      | some ptys => exact ihTL sc ptys letters hinv e he
    · intro sc ts letters hinv e he
      cases ts with
      | nil => exact hinv e (by simpa [collectTypeLettersList] using he)
      | cons t rest =>
        simp only [collectTypeLettersList] at he
        exact ihTL sc rest _ (ihT sc t letters hinv) e he
    · intro sc t letters hinv e he
      simp only [collectTypeLetters] at he
      cases t <;> simp only [] at he
      case unit => exact hinv e he
      case boolean => exact hinv e he
      case integer => exact hinv e he
      case float => exact hinv e he
      case string => exact hinv e he
      case panic => exact hinv e he
      case array g => exact ihL sc g letters hinv e he
      case object ms f => exact ihP sc ms letters hinv e he
      case concreteObject ms => exact ihTP sc ms letters hinv e he
      case closure ps ret caps =>
        exact ihL sc ret _ (ihN sc ps letters hinv) e he
      case variants ms f => exact ihP sc ms letters hinv e he
    · intro sc ms letters hinv e he
      cases ms with
      | nil => exact hinv e (by simpa [collectLettersPairList] using he)
      | cons p rest =>
        rcases p with ⟨n, g⟩
        simp only [collectLettersPairList] at he
        exact ihP sc rest _ (ihL sc g letters hinv) e he
    · intro sc ms letters hinv e he
      cases ms with
      | nil => exact hinv e (by simpa [collectTypeLettersPairList] using he)
      | cons p rest =>
        rcases p with ⟨n, t⟩
        simp only [collectTypeLettersPairList] at he
        exact ihTP sc rest _ (ihT sc t letters hinv) e he
    · intro sc gs letters hinv e he
      cases gs with
      | nil => exact hinv e (by simpa [collectLettersNatList] using he)
      | cons g rest =>
        simp only [collectLettersNatList] at he
        exact ihN sc rest _ (ihL sc g letters hinv) e he

end Gerac.Check

namespace Gerac.Check

/-- C9 (amended): the first pass assigns each newly encountered
internal index the label `choose_letter(letters.len())` with an initial
usage count of 1 before recursing into the group's constructors; every
stored label comes from the `choose_letter` sequence; that sequence
runs `A..Z` and then continues with base-26 digits least-significant
first, so the 27th label is `"AB"`, the 28th is `"BB"`, and `"AA"`
never occurs; rendering uses a letter exactly for indices whose usage
count reached 2; and the `where` clause loop skips every entry whose
usage count is below 2. -/
theorem claim_C9 :
    (∀ (fuel : Nat) (sc : DisplayScope) (g : Nat)
        (letters : List (Nat × String × Nat)),
      alookup letters (sc.getGroupInternalIndex g) = none →
      collectLetters (fuel + 1) sc g letters
        = collectLettersGroup fuel sc (sc.getGroupTypes g)
          (letters ++ [(sc.getGroupInternalIndex g,
            (chooseLetter letters.length, 1))])) ∧
    (∀ (fuel : Nat) (sc : DisplayScope) (g : Nat)
        (letters : List (Nat × String × Nat)),
      (∀ e ∈ letters, ∃ j, e.2.1 = chooseLetter j) →
      ∀ e ∈ collectLetters fuel sc g letters,
        ∃ j, e.2.1 = chooseLetter j) ∧
    chooseLetter 26 = "AB" ∧
    chooseLetter 27 = "BB" ∧
    (∀ i, chooseLetter i ≠ "AA") ∧
    (∀ (fuel : Nat) (strings : Nat → String) (sc : DisplayScope)
        (g : Nat) (letters : List (Nat × String × Nat)) (ltr : String)
        (c : Nat),
      alookup letters (sc.getGroupInternalIndex g) = some (ltr, c) →
      2 ≤ c →
      displayTypesInternalD (fuel + 1) strings sc g letters = ltr) ∧
    (∀ (fuel : Nat) (strings : Nat → String) (sc : DisplayScope)
        (allLetters entries : List (Nat × String × Nat)) (acc : String),
      letterTypesLoop fuel strings sc allLetters entries acc
        = letterTypesLoop fuel strings sc allLetters
          (entries.filter fun e => decide (2 ≤ e.2.2)) acc) := by
  refine ⟨?_, (fun fuel => (collectLetters_labels fuel).1), ?_, ?_,
    chooseLetter_ne_AA, ?_, ?_⟩
  · intro fuel sc g letters h
    simp only [collectLetters]
    rw [h]
  · simp [chooseLetter, chooseLetterChars, LETTERS]
  · simp [chooseLetter, chooseLetterChars, LETTERS]
  · intro fuel strings sc g letters ltr c h hc
    simp only [displayTypesInternalD]
    rw [h]
    simp only []
    rw [if_pos hc]
  · intro fuel strings sc allLetters entries
    induction entries with
    | nil => intro acc; rfl
    | cons e rest ih =>
      intro acc
      rcases e with ⟨idx, ltr, cnt⟩
      simp only [letterTypesLoop, List.filter_cons]
      by_cases hc : cnt < 2
      · rw [if_pos hc]
        have hd : decide (2 ≤ cnt) = false := by
          simp only [decide_eq_false_iff_not]
          omega
        rw [hd]
        simp only [Bool.false_eq_true, if_neg (by simp : ¬False)]
        exact ih acc
      · rw [if_neg hc]
        have hd : decide (2 ≤ cnt) = true := by
          simp only [decide_eq_true_eq]
          omega
        rw [hd]
        simp only [if_pos trivial]
        rw [letterTypesLoop]
        rw [if_neg hc]
        exact ih _

/-- Witness for C9 at a concrete one-group scope: a fresh index is
published under `choose_letter(0)`, and a doubly referenced index
renders as its letter. -/
theorem claim_C9_witness :
    (collectLetters 3 (⟨[0], [none]⟩ : DisplayScope) 0 []
      = collectLettersGroup 2 (⟨[0], [none]⟩ : DisplayScope)
        (DisplayScope.getGroupTypes ⟨[0], [none]⟩ 0)
        [(0, (chooseLetter 0, 1))]) ∧
    displayTypesInternalD 1 (fun _ => "") (⟨[0], [none]⟩ : DisplayScope) 0
      [(0, ("A", 2))] = "A" :=
  ⟨claim_C9.1 2 ⟨[0], [none]⟩ 0 [] rfl,
    claim_C9.2.2.2.2.2.1 0 (fun _ => "") ⟨[0], [none]⟩ 0
      [(0, ("A", 2))] "A" 2 rfl (by omega)⟩

end Gerac.Check

namespace Gerac

/-- Removal empties the removed key. -/
theorem alookup_aremove_self {α : Type} (l : List (Nat × α)) (k : Nat) :
    alookup (aremove l k) k = none := by
  induction l with
  | nil => rfl
  | cons p rest ih =>
    rcases p with ⟨k0, v0⟩
    simp only [aremove, List.filter_cons]
    by_cases hk : k0 = k
    · simp only [hk, decide_eq_true_eq]
      rw [if_neg (by simp)]
      exact ih
    · rw [if_pos (by simpa using hk)]
      simp only [alookup, if_neg hk]
      exact ih

/-- Removal leaves other keys untouched. -/
theorem alookup_aremove_ne {α : Type} (l : List (Nat × α)) (k k2 : Nat)
    (h : k2 ≠ k) : alookup (aremove l k) k2 = alookup l k2 := by
  induction l with
  | nil => rfl
  | cons p rest ih =>
    rcases p with ⟨k0, v0⟩
    simp only [aremove, List.filter_cons]
    by_cases hk : k0 = k
    · rw [if_neg (by simp [hk])]
      simp only [alookup]
      rw [if_neg (by omega)]
      exact ih
    · rw [if_pos (by simpa using hk)]
      simp only [alookup]
      by_cases hk2 : k0 = k2
      · simp [hk2]
      · rw [if_neg hk2, if_neg hk2]
        exact ih

/-- Update stores the new value at the updated key. -/
theorem alookup_aupdate_self {α : Type} (l : List (Nat × α)) (k : Nat)
    (v : α) : alookup (aupdate l k v) k = some v := by
  induction l with
  | nil => simp [aupdate, alookup]
  | cons p rest ih =>
    rcases p with ⟨k0, v0⟩
    simp only [aupdate]
    by_cases hk : k0 = k
    · simp [alookup, hk]
    · simp only [if_neg hk, alookup, if_neg hk]
      exact ih

/-- Update leaves other keys untouched. -/
theorem alookup_aupdate_ne {α : Type} (l : List (Nat × α)) (k k2 : Nat)
    (v : α) (h : k2 ≠ k) :
    alookup (aupdate l k v) k2 = alookup l k2 := by
  induction l with
  | nil =>
    simp only [aupdate, alookup]
    rw [if_neg (by omega)]
  | cons p rest ih =>
    rcases p with ⟨k0, v0⟩
    simp only [aupdate]
    by_cases hk : k0 = k
    · simp only [if_pos hk, alookup]
      rw [if_neg (by omega), if_neg (by omega)]
    · simp only [if_neg hk, alookup]
      by_cases hk2 : k0 = k2
      · simp [hk2]
      · rw [if_neg hk2, if_neg hk2]
        exact ih

end Gerac

namespace Gerac.Check

theorem initVarBranchLoop_iff (name vt : Nat) :
    ∀ (branches : List BranchData) (fuel : Nat) (s s' : TypeScope) (b : Bool),
    initVarBranchLoop fuel s name vt branches = (.ok b, s') →
    (b = true ↔
      ∀ br ∈ branches, (alookup br.2.1 name).isSome = true → br.2.2.2 = true) := by
  intro branches
  induction branches with
  | nil =>
    intro fuel s s' b h
    simp only [initVarBranchLoop, Prod.mk.injEq] at h
    obtain ⟨h1, -⟩ := h
    injection h1 with h1
    subst h1
    simp
  | cons head rest ih =>
    intro fuel s s' b h
    obtain ⟨bVars, bUninit, bRets⟩ := head
    simp only [initVarBranchLoop] at h
    by_cases hU : (alookup bUninit name).isSome
    · rw [if_pos hU] at h
      rcases hR : bRets.2 with _ | _
      · rw [hR] at h
        rw [if_pos (by simp)] at h
        simp only [Prod.mk.injEq] at h
        obtain ⟨h1, -⟩ := h
        injection h1 with h1
        subst h1
        simp only [Bool.false_eq_true, false_iff]
        intro hall
        have := hall (bVars, bUninit, bRets) (List.mem_cons_self _ _) hU
        simp only [] at this
        rw [hR] at this
        exact absurd this (by simp)
      · rw [hR] at h
        rw [if_neg (by simp)] at h
        rw [ih fuel s s' b h]
        constructor
        · intro hall br hbr
          rcases List.mem_cons.mp hbr with hbr | hbr
          · subst hbr
            intro _
            exact hR
          · exact hall br hbr
        · intro hall br hbr
          exact hall br (List.mem_cons_of_mem _ hbr)
    · rw [if_neg hU] at h
      rcases hV : alookup bVars name with _ | ⟨bTypes, bm, bsrc⟩
      · rw [hV] at h
        simp at h
      · rw [hV] at h
        simp only [] at h
        rcases hA : assertTypes fuel s vt bTypes with ⟨r, s1⟩
        rw [hA] at h
        rcases r with e | v
        · simp at h
        · simp only [] at h
          rw [ih fuel s1 s' b h]
          constructor
          · intro hall br hbr
            rcases List.mem_cons.mp hbr with hbr | hbr
            · subst hbr
              intro hS
              exact absurd hS (by simpa using hU)
            · exact hall br hbr
          · intro hall br hbr
            exact hall br (List.mem_cons_of_mem _ hbr)

end Gerac.Check

namespace Gerac.Check

theorem initVarBranchLoop_true_unify (name vt : Nat) :
    ∀ (branches : List BranchData) (fuel : Nat) (s s' : TypeScope),
    initVarBranchLoop fuel s name vt branches = (.ok true, s') →
    unifyInitializing fuel vt name s branches = (.ok (), s') := by
  intro branches
  induction branches with
  | nil =>
    intro fuel s s' h
    simp only [initVarBranchLoop, Prod.mk.injEq] at h
    rw [h.2]
    rfl
  | cons head rest ih =>
    intro fuel s s' h
    obtain ⟨bVars, bUninit, bRets⟩ := head
    simp only [initVarBranchLoop] at h
    simp only [unifyInitializing]
    by_cases hU : (alookup bUninit name).isSome
    · rw [if_pos hU] at h
      rw [if_pos hU]
      rcases hR : bRets.2 with _ | _
      · rw [hR] at h
        rw [if_pos (by simp)] at h
        simp only [Prod.mk.injEq] at h
        exact absurd h.1 (by simp)
      · rw [hR] at h
        rw [if_neg (by simp)] at h
        exact ih fuel s s' h
    · rw [if_neg hU] at h
      rw [if_neg hU]
      rcases hV : alookup bVars name with _ | ⟨bTypes, bm, bsrc⟩
      · rw [hV] at h
        simp at h
      · rw [hV] at h
        simp only [] at h
        simp only []
        rcases hA : assertTypes fuel s vt bTypes with ⟨r, s1⟩
        rw [hA] at h
        rcases r with e | v
        · simp at h
        · simp only [] at h
          simp only []
          exact ih fuel s1 s' h

theorem initVarBranchLoop_false_break (name vt : Nat) :
    ∀ (branches : List BranchData) (fuel : Nat) (s s' : TypeScope),
    initVarBranchLoop fuel s name vt branches = (.ok false, s') →
    ∃ pre bVars bUninit bRets post,
      branches = pre ++ (bVars, bUninit, bRets) :: post ∧
      (alookup bUninit name).isSome = true ∧ bRets.2 = false ∧
      (∀ br ∈ pre, (alookup br.2.1 name).isSome = true → br.2.2.2 = true) ∧
      unifyInitializing fuel vt name s pre = (.ok (), s') := by
  intro branches
  induction branches with
  | nil =>
    intro fuel s s' h
    simp only [initVarBranchLoop, Prod.mk.injEq] at h
    exact absurd h.1 (by simp)
  | cons head rest ih =>
    intro fuel s s' h
    obtain ⟨bVars, bUninit, bRets⟩ := head
    simp only [initVarBranchLoop] at h
    by_cases hU : (alookup bUninit name).isSome
    · rw [if_pos hU] at h
      rcases hR : bRets.2 with _ | _
      · rw [hR] at h
        rw [if_pos (by simp)] at h
        simp only [Prod.mk.injEq] at h
        refine ⟨[], bVars, bUninit, bRets, rest, by simp, hU, hR, by simp, ?_⟩
        rw [← h.2]
        rfl
      · rw [hR] at h
        rw [if_neg (by simp)] at h
        obtain ⟨pre, bV, bU, bR, post, heq, hu, hr, hall, hun⟩ := ih fuel s s' h
        refine ⟨(bVars, bUninit, bRets) :: pre, bV, bU, bR, post, by rw [heq]; rfl,
          hu, hr, ?_, ?_⟩
        · intro br hbr
          rcases List.mem_cons.mp hbr with hbr | hbr
          · subst hbr
            intro _
            exact hR
          · exact hall br hbr
        · simp only [unifyInitializing]
          rw [if_pos hU]
          exact hun
    · rw [if_neg hU] at h
      rcases hV : alookup bVars name with _ | ⟨bTypes, bm, bsrc⟩
      · rw [hV] at h
        simp at h
      · rw [hV] at h
        simp only [] at h
        rcases hA : assertTypes fuel s vt bTypes with ⟨r, s1⟩
        rw [hA] at h
        rcases r with e | v
        · simp at h
        · simp only [] at h
          obtain ⟨pre, bV, bU, bR, post, heq, hu, hr, hall, hun⟩ := ih fuel s1 s' h
          refine ⟨(bVars, bUninit, bRets) :: pre, bV, bU, bR, post, by rw [heq]; rfl,
            hu, hr, ?_, ?_⟩
          · intro br hbr
            rcases List.mem_cons.mp hbr with hbr | hbr
            · subst hbr
              intro hS
              exact absurd hS (by simpa using hU)
            · exact hall br hbr
          · simp only [unifyInitializing]
            rw [if_neg hU, hV]
            simp only []
            rw [hA]
            simp only []
            exact hun

end Gerac.Check

namespace Gerac.Check

theorem initVarsGo_untouched (branches : List BranchData) (name : Nat) :
    ∀ (names : List Nat) (fuel : Nat) (s s' : TypeScope)
    (vars uninit vars' uninit' : VarTable),
    initVarsGo fuel branches names s vars uninit = (.ok (), s', vars', uninit') →
    name ∉ names →
    alookup uninit' name = alookup uninit name ∧
    alookup vars' name = alookup vars name := by
  intro names
  induction names with
  | nil =>
    intro fuel s s' vars uninit vars' uninit' h hn
    simp only [initVarsGo, Prod.mk.injEq] at h
    rw [h.2.2.2, h.2.2.1]
    exact ⟨rfl, rfl⟩
  | cons m rest ih =>
    intro fuel s s' vars uninit vars' uninit' h hn
    have hne : name ≠ m := fun hh => hn (hh ▸ List.mem_cons_self _ _)
    have hnr : name ∉ rest := fun hh => hn (List.mem_cons_of_mem _ hh)
    simp only [initVarsGo] at h
    rcases hI : alookup uninit m with _ | info
    · rw [hI] at h
      simp at h
    · rw [hI] at h
      simp only [] at h
      rcases hL : initVarBranchLoop fuel s m info.1 branches with ⟨r, s1⟩
      rw [hL] at h
      rcases r with e | b
      · simp at h
      · simp only [] at h
        rcases b with _ | _
        · rw [if_pos (by simp)] at h
          exact ih fuel s1 s' vars uninit vars' uninit' h hnr
        · rw [if_neg (by simp)] at h
          obtain ⟨h1, h2⟩ :=
            ih fuel s1 s' (aupdate vars m info) (aremove uninit m) vars' uninit' h hnr
          rw [h1, h2, alookup_aremove_ne _ _ _ hne, alookup_aupdate_ne _ _ _ _ hne]
          exact ⟨rfl, rfl⟩

end Gerac.Check

namespace Gerac.Check

theorem initVarsGo_spec (branches : List BranchData) (name : Nat) :
    ∀ (names : List Nat) (fuel : Nat) (s s' : TypeScope)
    (vars uninit vars' uninit' : VarTable) (info : VarInfo),
    names.Nodup →
    initVarsGo fuel branches names s vars uninit = (.ok (), s', vars', uninit') →
    name ∈ names →
    alookup uninit name = some info →
    ((∀ br ∈ branches, (alookup br.2.1 name).isSome = true → br.2.2.2 = true) →
       alookup uninit' name = none ∧ alookup vars' name = some info) ∧
    ((∃ br ∈ branches, (alookup br.2.1 name).isSome = true ∧ br.2.2.2 = false) →
       alookup uninit' name = some info ∧ alookup vars' name = alookup vars name) := by
  intro names
  induction names with
  | nil =>
    intro fuel s s' vars uninit vars' uninit' info hnd h hmem hinfo
    exact absurd hmem (List.not_mem_nil name)
  | cons m rest ih =>
    intro fuel s s' vars uninit vars' uninit' info hnd h hmem hinfo
    obtain ⟨hmnr, hndr⟩ := List.nodup_cons.mp hnd
    simp only [initVarsGo] at h
    by_cases hm : name = m
    · subst hm
      rw [hinfo] at h
      simp only [] at h
      rcases hL : initVarBranchLoop fuel s name info.1 branches with ⟨r, s1⟩
      rw [hL] at h
      rcases r with e | b
      · simp at h
      · simp only [] at h
        have hiff := initVarBranchLoop_iff name info.1 branches fuel s s1 b hL
        constructor
        · intro hall
          have hb : b = true := hiff.mpr hall
          subst hb
          rw [if_neg (by simp)] at h
          obtain ⟨h1, h2⟩ := initVarsGo_untouched branches name rest fuel s1 s'
            (aupdate vars name info) (aremove uninit name) vars' uninit' h hmnr
          rw [h1, h2, alookup_aremove_self, alookup_aupdate_self]
          exact ⟨rfl, rfl⟩
        · intro hex
          obtain ⟨br, hbr, hu, hr⟩ := hex
          have hb : b = false := by
            rcases hb2 : b with _ | _
            · rfl
            · rw [hb2] at hiff
              exact absurd (hiff.mp rfl br hbr hu) (by simp [hr])
          subst hb
          rw [if_pos (by simp)] at h
          obtain ⟨h1, h2⟩ := initVarsGo_untouched branches name rest fuel s1 s'
            vars uninit vars' uninit' h hmnr
          rw [h1, h2, hinfo]
          exact ⟨rfl, rfl⟩
    · rcases hIm : alookup uninit m with _ | infoM
      · rw [hIm] at h
        simp at h
      · rw [hIm] at h
        simp only [] at h
        rcases hL : initVarBranchLoop fuel s m infoM.1 branches with ⟨r, s1⟩
        rw [hL] at h
        rcases r with e | b
        · simp at h
        · simp only [] at h
          have hmemr : name ∈ rest := by
            rcases List.mem_cons.mp hmem with hh | hh
            · exact absurd hh hm
            · exact hh
          rcases b with _ | _
          · rw [if_pos (by simp)] at h
            exact ih fuel s1 s' vars uninit vars' uninit' info hndr h hmemr hinfo
          · rw [if_neg (by simp)] at h
            have hinfo2 : alookup (aremove uninit m) name = some info := by
              rw [alookup_aremove_ne _ _ _ hm]
              exact hinfo
            obtain ⟨hA, hB⟩ := ih fuel s1 s' (aupdate vars m infoM) (aremove uninit m)
              vars' uninit' info hndr h hmemr hinfo2
            refine ⟨hA, ?_⟩
            intro hex
            obtain ⟨h1, h2⟩ := hB hex
            rw [h2, alookup_aupdate_ne _ _ _ _ hm]
            exact ⟨h1, rfl⟩

end Gerac.Check

namespace Gerac.Check

/-- C4 counterexample: branch 0 still holds name 0 uninitialized and does
not always return, so the inner loop of `initalize_variables` breaks
before reaching branch 1, which initialized the name with group 1.  The
run succeeds with the scope and both tables unchanged, even though the
claimed unification of group 1 against the parent's group 0 would have
failed (`{Integer}` against `{String}`): the branch that initialized the
name was never unified. -/
theorem claim_C4_counterexample :
    initalizeVariables 10 exFailScope []
      [(0, (0, false, 0))]
      [([], [(0, (0, false, 0))], (false, false)),
       ([(0, (1, false, 0))], [], (false, false))] =
      (.ok (), exFailScope, [], [(0, (0, false, 0))]) ∧
    (exFailScope.tryMergeGroups 10 0 1).1 = false := by
  exact ⟨rfl, rfl⟩

/-- C4 (amended): for a name in the parent's uninitialized table, a
successful `initalize_variables` run moves the name into the initialized
table exactly when every branch that still holds it uninitialized always
returns (equivalently, when every non-diverging branch initialized it);
otherwise it stays uninitialized with the initialized entry unchanged.
The branch groups are unified against the parent's recorded group only
up to the break: when the inner loop completes, every initializing
branch was unified in order; when it breaks at a non-diverging branch
that holds the name uninitialized, exactly the initializing branches
strictly before the break point were unified, and branches after it are
skipped. -/
theorem claim_C4 :
    (∀ (branches : List BranchData) (name vt fuel : Nat) (s s' : TypeScope) (b : Bool),
      initVarBranchLoop fuel s name vt branches = (.ok b, s') →
      (b = true ↔
        ∀ br ∈ branches, (alookup br.2.1 name).isSome = true → br.2.2.2 = true)) ∧
    (∀ (branches : List BranchData) (name fuel : Nat) (s s' : TypeScope)
      (vars uninit vars' uninit' : VarTable) (info : VarInfo),
      (uninit.map Prod.fst).Nodup →
      initalizeVariables fuel s vars uninit branches = (.ok (), s', vars', uninit') →
      alookup uninit name = some info →
      ((∀ br ∈ branches, (alookup br.2.1 name).isSome = true → br.2.2.2 = true) →
         alookup uninit' name = none ∧ alookup vars' name = some info) ∧
      ((∃ br ∈ branches, (alookup br.2.1 name).isSome = true ∧ br.2.2.2 = false) →
         alookup uninit' name = some info ∧ alookup vars' name = alookup vars name)) ∧
    (∀ (branches : List BranchData) (name vt fuel : Nat) (s s' : TypeScope),
      initVarBranchLoop fuel s name vt branches = (.ok true, s') →
      unifyInitializing fuel vt name s branches = (.ok (), s')) ∧
    (∀ (branches : List BranchData) (name vt fuel : Nat) (s s' : TypeScope),
      initVarBranchLoop fuel s name vt branches = (.ok false, s') →
      ∃ pre bVars bUninit bRets post,
        branches = pre ++ (bVars, bUninit, bRets) :: post ∧
        (alookup bUninit name).isSome = true ∧ bRets.2 = false ∧
        (∀ br ∈ pre, (alookup br.2.1 name).isSome = true → br.2.2.2 = true) ∧
        unifyInitializing fuel vt name s pre = (.ok (), s')) := by
  refine ⟨?_, ?_, ?_, ?_⟩
  · intro branches name vt fuel s s' b h
    exact initVarBranchLoop_iff name vt branches fuel s s' b h
  · intro branches name fuel s s' vars uninit vars' uninit' info hnd h hinfo
    have hmem : name ∈ uninit.map Prod.fst :=
      (alookup_isSome_iff uninit name).mp (by rw [hinfo]; rfl)
    exact initVarsGo_spec branches name (uninit.map Prod.fst) fuel s s'
      vars uninit vars' uninit' info hnd h hmem hinfo
  · intro branches name vt fuel s s' h
    exact initVarBranchLoop_true_unify name vt branches fuel s s' h
  · intro branches name vt fuel s s' h
    exact initVarBranchLoop_false_break name vt branches fuel s s' h

/-- C4 witness: a name initialized by branch 0 (group 1, successfully
unified with the parent's group 0) while branch 1 always returns; the
name is moved from the uninitialized table into the initialized one. -/
theorem claim_C4_witness :
    alookup ([] : VarTable) 0 = none ∧
    alookup [(0, ((0 : Nat), false, (0 : Nat)))] 0 = some (0, false, 0) := by
  exact (claim_C4.2.1
    [([(0, (1, false, 0))], [], (false, false)),
     ([], [(0, (0, false, 0))], (false, true))]
    0 10 exPrimScope
    { groups := [0, 0],
      groupTypes := [[.integer], [.integer]],
      arrays := [], objects := [], concreteObjects := [], closures := [],
      variants := [] }
    [] [(0, (0, false, 0))] [(0, (0, false, 0))] [] (0, false, 0)
    (by decide) (by rfl) rfl).1 (by decide)

end Gerac.Check

namespace Gerac

theorem alookup_aupdate_isSome {α : Type} (l : List (Nat × α)) (k k2 : Nat)
    (v : α) (h : (alookup l k2).isSome = true) :
    (alookup (aupdate l k v) k2).isSome = true := by
  by_cases hk : k2 = k
  · subst hk
    rw [alookup_aupdate_self]
    rfl
  · rw [alookup_aupdate_ne _ _ _ _ hk]
    exact h

theorem mem_aremove {α : Type} (l : List (Nat × α)) (k : Nat) (p : Nat × α)
    (h : p ∈ aremove l k) : p ∈ l :=
  List.mem_of_mem_filter h

theorem aremove_keys_nodup {α : Type} (l : List (Nat × α)) (k : Nat)
    (h : (l.map Prod.fst).Nodup) : ((aremove l k).map Prod.fst).Nodup :=
  List.Nodup.sublist (List.Sublist.map Prod.fst (List.filter_sublist l)) h

theorem aremove_of_not_mem {α : Type} (l : List (Nat × α)) (k : Nat)
    (h : k ∉ l.map Prod.fst) : aremove l k = l := by
  induction l with
  | nil => rfl
  | cons p rest ih =>
    simp only [List.map_cons, List.mem_cons] at h
    push_neg at h
    simp only [aremove, List.filter_cons]
    rw [if_pos (by simpa using Ne.symm h.1)]
    have := ih h.2
    simp only [aremove] at this
    rw [this]

end Gerac

namespace Gerac.Check

theorem symMeasure_aremove (l : List (Nat × USym)) (name : Nat) (v : USym)
    (hnd : (l.map Prod.fst).Nodup) (h : alookup l name = some v) :
    (l.map (fun p => usymSize p.2)).sum =
      usymSize v + ((aremove l name).map (fun p => usymSize p.2)).sum := by
  induction l with
  | nil => simp [alookup] at h
  | cons p rest ih =>
    obtain ⟨k0, v0⟩ := p
    simp only [List.map_cons, List.nodup_cons] at hnd
    simp only [alookup] at h
    by_cases hk : k0 = name
    · rw [if_pos hk] at h
      injection h with h
      subst h
      subst hk
      simp only [aremove, List.filter_cons]
      rw [if_neg (by simp)]
      have hrem : aremove rest k0 = rest :=
        aremove_of_not_mem rest k0 hnd.1
      simp only [aremove] at hrem
      rw [hrem]
      simp
    · rw [if_neg hk] at h
      simp only [aremove, List.filter_cons]
      rw [if_pos (by simpa using hk)]
      simp only [List.map_cons, List.sum_cons]
      have := ih hnd.2 h
      simp only [aremove] at this
      rw [this]
      omega

theorem resolvable_publish (st : SymState) (name k : Nat)
    (h : resolvable st k) :
    resolvable ⟨aremove st.untyped name, publishProcedure st.typed name⟩ k := by
  by_cases hk : k = name
  · subst hk
    right
    simp only [publishProcedure]
    rw [alookup_aupdate_self]
    rfl
  · rcases h with h | h
    · left
      simp only []
      rw [alookup_aremove_ne _ _ _ hk]
      exact h
    · right
      simp only [publishProcedure]
      exact alookup_aupdate_isSome _ _ _ _ h

theorem resolvable_typed_update (st : SymState) (name k : Nat) (v : TSym)
    (h : resolvable st k) :
    resolvable { st with typed := aupdate st.typed name v } k := by
  rcases h with h | h
  · exact Or.inl h
  · exact Or.inr (alookup_aupdate_isSome _ _ _ _ h)

end Gerac.Check

namespace Gerac.Check

theorem goodProcs_publish (st : SymState) (name : Nat) (hg : GoodProcs st) :
    GoodProcs ⟨aremove st.untyped name, publishProcedure st.typed name⟩ := by
  obtain ⟨hnd, hall⟩ := hg
  refine ⟨aremove_keys_nodup _ _ hnd, ?_⟩
  intro p hp
  obtain ⟨refs, href, hres⟩ := hall p (mem_aremove _ _ _ hp)
  exact ⟨refs, href, fun r hr => resolvable_publish st name r (hres r hr)⟩

theorem goodProcs_typed_update (st : SymState) (name : Nat) (v : TSym)
    (hg : GoodProcs st) :
    GoodProcs { st with typed := aupdate st.typed name v } := by
  obtain ⟨hnd, hall⟩ := hg
  refine ⟨hnd, ?_⟩
  intro p hp
  obtain ⟨refs, href, hres⟩ := hall p hp
  exact ⟨refs, href, fun r hr => resolvable_typed_update st name r v (hres r hr)⟩

theorem symMeasure_publish_split (st : SymState) (name : Nat)
    (refs : List Nat) (hnd : (st.untyped.map Prod.fst).Nodup)
    (h : alookup st.untyped name = some (.procedure refs)) :
    symMeasure st = 2 + refs.length +
      symMeasure ⟨aremove st.untyped name, publishProcedure st.typed name⟩ := by
  have := symMeasure_aremove st.untyped name _ hnd h
  simpa [symMeasure, usymSize] using this

theorem symCheck_total : ∀ fuel : Nat,
    (∀ st name, GoodProcs st → resolvable st name →
      symMeasure st + 2 ≤ fuel →
      ∃ st', typeCheckSymbol fuel st name = (.ok (), st') ∧ GoodProcs st' ∧
        symMeasure st' ≤ symMeasure st ∧
        ∀ k, resolvable st k → resolvable st' k) ∧
    (∀ st refs, GoodProcs st → (∀ r ∈ refs, resolvable st r) →
      symMeasure st + refs.length + 2 ≤ fuel →
      ∃ st', checkRefs fuel st refs = (.ok (), st') ∧ GoodProcs st' ∧
        symMeasure st' ≤ symMeasure st ∧
        ∀ k, resolvable st k → resolvable st' k) := by
  intro fuel
  induction fuel with
  | zero =>
    exact ⟨fun st name _ _ h => absurd h (by omega),
           fun st refs _ _ h => absurd h (by omega)⟩
  | succ fuel ih =>
    constructor
    · intro st name hg hres hfuel
      rcases hU : alookup st.untyped name with _ | u
      · have htyped : (alookup st.typed name).isSome = true := by
          rcases hres with h | h
          · rw [hU] at h
            exact absurd h (by simp)
          · exact h
        refine ⟨st, ?_, hg, le_refl _, fun k h => h⟩
        simp only [typeCheckSymbol]
        rw [hU]
        simp only [finishSymbol]
        rw [if_pos htyped]
      · rcases u with refs | refs
        · have hmem := alookup_mem st.untyped name (USym.procedure refs) hU
          obtain ⟨refs', heq, hres'⟩ := hg.2 _ hmem
          simp only [] at heq
          injection heq with heq
          subst heq
          have hsplit := symMeasure_publish_split st name refs hg.1 hU
          have hg1 := goodProcs_publish st name hg
          have hres1 : ∀ r ∈ refs, resolvable
              ⟨aremove st.untyped name, publishProcedure st.typed name⟩ r :=
            fun r hr => resolvable_publish st name r (hres' r hr)
          have hfuel1 : symMeasure
              ⟨aremove st.untyped name, publishProcedure st.typed name⟩ +
              refs.length + 2 ≤ fuel := by
            omega
          obtain ⟨st2, hck, hg2, hm2, hp2⟩ := ih.2
            ⟨aremove st.untyped name, publishProcedure st.typed name⟩
            refs hg1 hres1 hfuel1
          refine ⟨{ st2 with
              typed := aupdate st2.typed name (.procedure (some refs)) },
            ?_, ?_, ?_, ?_⟩
          · simp only [typeCheckSymbol]
            rw [hU]
            simp only []
            rw [hck]
            simp only [finishSymbol]
            rw [if_pos (by rw [alookup_aupdate_self]; rfl)]
          · exact goodProcs_typed_update st2 name _ hg2
          · have hms : symMeasure { st2 with
                typed := aupdate st2.typed name (.procedure (some refs)) } =
                symMeasure st2 := rfl
            rw [hms]
            omega
          · intro k hk
            exact resolvable_typed_update st2 name k _
              (hp2 k (resolvable_publish st name k hk))
        · have hmem := alookup_mem st.untyped name (USym.constant refs) hU
          obtain ⟨refs', heq, -⟩ := hg.2 _ hmem
          exact absurd heq (by simp)
    · intro st refs hg hres hfuel
      rcases refs with _ | ⟨r, rest⟩
      · exact ⟨st, rfl, hg, le_refl _, fun k h => h⟩
      · have hfuel1 : symMeasure st + 2 ≤ fuel := by
          simp only [List.length_cons] at hfuel
          omega
        obtain ⟨st1, hts, hg1, hm1, hp1⟩ := ih.1 st r hg
          (hres r (List.mem_cons_self _ _)) hfuel1
        have hres1 : ∀ x ∈ rest, resolvable st1 x :=
          fun x hx => hp1 x (hres x (List.mem_cons_of_mem _ hx))
        have hfuel2 : symMeasure st1 + rest.length + 2 ≤ fuel := by
          simp only [List.length_cons] at hfuel
          omega
        obtain ⟨st2, hck, hg2, hm2, hp2⟩ := ih.2 st1 rest hg1 hres1 hfuel2
        refine ⟨st2, ?_, hg2, by omega, fun k hk => hp2 k (hp1 k hk)⟩
        simp only [checkRefs]
        rw [hts]
        simp only []
        exact hck

end Gerac.Check

namespace Gerac.Check

theorem symErr_absent : ∀ fuel : Nat,
    (∀ st name n st',
      typeCheckSymbol fuel st name = (.error (.recursiveConstant n), st') →
      alookup st'.untyped n = none ∧ alookup st'.typed n = none) ∧
    (∀ st refs n st',
      checkRefs fuel st refs = (.error (.recursiveConstant n), st') →
      alookup st'.untyped n = none ∧ alookup st'.typed n = none) := by
  intro fuel
  induction fuel with
  | zero =>
    constructor
    · intro st name n st' h
      simp only [typeCheckSymbol, Prod.mk.injEq] at h
      exact absurd h.1 (by simp)
    · intro st refs n st' h
      simp only [checkRefs, Prod.mk.injEq] at h
      exact absurd h.1 (by simp)
  | succ fuel ih =>
    constructor
    · intro st name n st' h
      simp only [typeCheckSymbol] at h
      rcases hU : alookup st.untyped name with _ | u
      · rw [hU] at h
        simp only [finishSymbol] at h
        by_cases ht : (alookup st.typed name).isSome = true
        · rw [if_pos ht] at h
          simp at h
        · rw [if_neg ht] at h
          simp only [Prod.mk.injEq] at h
          obtain ⟨h1, h2⟩ := h
          injection h1 with h1
          injection h1 with h1
          subst h1
          subst h2
          refine ⟨hU, ?_⟩
          rcases ho : alookup st.typed name with _ | v
          · rfl
          · exact absurd (by rw [ho]; rfl) ht
      · rcases u with refs | refs
        · rw [hU] at h
          simp only [] at h
          rcases hck : checkRefs fuel
              ⟨aremove st.untyped name, publishProcedure st.typed name⟩ refs
            with ⟨r, st2⟩
          rw [hck] at h
          rcases r with e | v
          · simp only [finishSymbol] at h
            simp only [Prod.mk.injEq] at h
            obtain ⟨h1, h2⟩ := h
            injection h1 with h1
            subst h1
            subst h2
            exact (ih.2 _ refs n st2 hck)
          · simp only [finishSymbol] at h
            rw [if_pos (by rw [alookup_aupdate_self]; rfl)] at h
            simp at h
        · rw [hU] at h
          simp only [] at h
          rcases hck : checkRefs fuel
              { st with untyped := aremove st.untyped name } refs
            with ⟨r, st2⟩
          rw [hck] at h
          rcases r with e | v
          · simp only [finishSymbol] at h
            simp only [Prod.mk.injEq] at h
            obtain ⟨h1, h2⟩ := h
            injection h1 with h1
            subst h1
            subst h2
            exact (ih.2 _ refs n st2 hck)
          · simp only [finishSymbol] at h
            by_cases ht : (alookup (aupdate st2.typed name TSym.constant)
                name).isSome = true
            · rw [if_pos ht] at h
              simp at h
            · exact absurd (by rw [alookup_aupdate_self]; rfl) ht
    · intro st refs n st' h
      rcases refs with _ | ⟨r, rest⟩
      · simp only [checkRefs, Prod.mk.injEq] at h
        exact absurd h.1 (by simp)
      · simp only [checkRefs] at h
        rcases hts : typeCheckSymbol fuel st r with ⟨res, st1⟩
        rw [hts] at h
        rcases res with e | v
        · simp only [] at h
          simp only [Prod.mk.injEq] at h
          obtain ⟨h1, h2⟩ := h
          injection h1 with h1
          subst h1
          subst h2
          exact ih.1 st r n st1 hts
        · simp only [] at h
          exact ih.2 st1 rest n st' h

end Gerac.Check

namespace Gerac.Check

/-- C5: `type_check_symbol` reports `RecursiveConstant` exactly when the
requested path is absent from both symbol tables.  Part 1: absent from
both tables, the call fails with `RecursiveConstant` for that path and
leaves the state unchanged.  Part 2: absent from the untyped table but
present in the typed table, the call succeeds with the state unchanged.
Part 3: conversely, whenever any (possibly nested) call reports
`RecursiveConstant` for a path, that path is absent from both tables of
the resulting state.  Part 4: in a closed world of procedures (every
untyped symbol a procedure whose references are resolvable), a
resolvable symbol never produces the error: with enough fuel the check
succeeds, because a procedure is installed in the typed table before
its body is checked. -/
theorem claim_C5 :
    (∀ (st : SymState) (name fuel : Nat),
      alookup st.untyped name = none → alookup st.typed name = none →
      typeCheckSymbol (fuel + 1) st name =
        (.error (.recursiveConstant name), st)) ∧
    (∀ (st : SymState) (name fuel : Nat),
      alookup st.untyped name = none →
      (alookup st.typed name).isSome = true →
      typeCheckSymbol (fuel + 1) st name = (.ok (), st)) ∧
    (∀ (fuel : Nat) (st st' : SymState) (name n : Nat),
      typeCheckSymbol fuel st name = (.error (.recursiveConstant n), st') →
      alookup st'.untyped n = none ∧ alookup st'.typed n = none) ∧
    (∀ (st : SymState) (name fuel : Nat),
      GoodProcs st → resolvable st name → symMeasure st + 2 ≤ fuel →
      ∃ st', typeCheckSymbol fuel st name = (.ok (), st')) := by
  refine ⟨?_, ?_, ?_, ?_⟩
  · intro st name fuel hU hT
    simp only [typeCheckSymbol]
    rw [hU]
    simp only [finishSymbol]
    rw [if_neg (by rw [hT]; simp)]
  · intro st name fuel hU hT
    simp only [typeCheckSymbol]
    rw [hU]
    simp only [finishSymbol]
    rw [if_pos hT]
  · intro fuel st st' name n h
    exact (symErr_absent fuel).1 st name n st' h
  · intro st name fuel hg hres hfuel
    obtain ⟨st', h, -, -, -⟩ := (symCheck_total fuel).1 st name hg hres hfuel
    exact ⟨st', h⟩

/-- C5 witness: a self-recursive procedure is checked successfully,
while a path absent from both tables yields `RecursiveConstant` and a
path present only in the typed table succeeds, in each case leaving the
state unchanged. -/
theorem claim_C5_witness :
    (typeCheckSymbol 5 ⟨[(0, USym.procedure [0])], []⟩ 0).1 = .ok () ∧
    typeCheckSymbol 1 ⟨[], []⟩ 0 =
      (.error (.recursiveConstant 0), ⟨[], []⟩) ∧
    typeCheckSymbol 1 ⟨[], [(0, TSym.constant)]⟩ 0 =
      (.ok (), ⟨[], [(0, TSym.constant)]⟩) := by
  refine ⟨?_, ?_, ?_⟩
  · have hg : GoodProcs ⟨[(0, USym.procedure [0])], []⟩ := by
      refine ⟨by decide, ?_⟩
      intro p hp
      rcases List.mem_singleton.mp hp with rfl
      refine ⟨[0], rfl, ?_⟩
      intro r hr
      rcases List.mem_singleton.mp hr with rfl
      exact Or.inl rfl
    obtain ⟨st', h⟩ := claim_C5.2.2.2 ⟨[(0, USym.procedure [0])], []⟩ 0 5
      hg (Or.inl rfl) (by decide)
    rw [h]
  · exact claim_C5.1 ⟨[], []⟩ 0 0 rfl rfl
  · exact claim_C5.2.1 ⟨[], [(0, TSym.constant)]⟩ 0 0 rfl rfl

end Gerac.Check

namespace Gerac.Check

theorem noNoneBody_aupdate (typed : List (Nat × TSym)) (name : Nat)
    (v : TSym) (hv : v ≠ TSym.procedure none) (h : NoNoneBody typed) :
    NoNoneBody (aupdate typed name v) := by
  intro p hp
  rcases mem_aupdate typed name v p hp with hp | hp
  · exact h p hp
  · rw [hp]
    exact hv

theorem noNoneBody_preserved : ∀ fuel : Nat,
    (∀ st name r st', typeCheckSymbol fuel st name = (r, st') →
      NoNoneBody st.typed → NoNoneBody st'.typed) ∧
    (∀ st refs r st', checkRefs fuel st refs = (r, st') →
      NoNoneBody st.typed → NoNoneBody st'.typed) := by
  intro fuel
  induction fuel with
  | zero =>
    constructor
    · intro st name r st' h hn
      simp only [typeCheckSymbol, Prod.mk.injEq] at h
      rw [← h.2]
      exact hn
    · intro st refs r st' h hn
      simp only [checkRefs, Prod.mk.injEq] at h
      rw [← h.2]
      exact hn
  | succ fuel ih =>
    constructor
    · intro st name r st' h hn
      simp only [typeCheckSymbol] at h
      rcases hU : alookup st.untyped name with _ | u
      · rw [hU] at h
        simp only [finishSymbol] at h
        by_cases ht : (alookup st.typed name).isSome = true
        · rw [if_pos ht] at h
          simp only [Prod.mk.injEq] at h
          rw [← h.2]
          exact hn
        · rw [if_neg ht] at h
          simp only [Prod.mk.injEq] at h
          rw [← h.2]
          exact hn
      · rcases u with refs | refs
        · rw [hU] at h
          simp only [] at h
          rcases hck : checkRefs fuel
              ⟨aremove st.untyped name, publishProcedure st.typed name⟩ refs
            with ⟨res, st2⟩
          rw [hck] at h
          have hn1 : NoNoneBody (publishProcedure st.typed name) :=
            noNoneBody_aupdate st.typed name _ (by simp) hn
          have hn2 : NoNoneBody st2.typed := ih.2 _ refs res st2 hck hn1
          rcases res with e | v
          · simp only [finishSymbol] at h
            simp only [Prod.mk.injEq] at h
            rw [← h.2]
            exact hn2
          · simp only [finishSymbol] at h
            rw [if_pos (by rw [alookup_aupdate_self]; rfl)] at h
            simp only [Prod.mk.injEq] at h
            rw [← h.2]
            exact noNoneBody_aupdate st2.typed name _ (by simp) hn2
        · rw [hU] at h
          simp only [] at h
          rcases hck : checkRefs fuel
              { st with untyped := aremove st.untyped name } refs
            with ⟨res, st2⟩
          rw [hck] at h
          have hn2 : NoNoneBody st2.typed := ih.2 _ refs res st2 hck hn
          rcases res with e | v
          · simp only [finishSymbol] at h
            simp only [Prod.mk.injEq] at h
            rw [← h.2]
            exact hn2
          · simp only [finishSymbol] at h
            by_cases ht : (alookup (aupdate st2.typed name TSym.constant)
                name).isSome = true
            · rw [if_pos ht] at h
              simp only [Prod.mk.injEq] at h
              rw [← h.2]
              exact noNoneBody_aupdate st2.typed name _ (by simp) hn2
            · exact absurd (by rw [alookup_aupdate_self]; rfl) ht
    · intro st refs r st' h hn
      rcases refs with _ | ⟨x, rest⟩
      · simp only [checkRefs, Prod.mk.injEq] at h
        rw [← h.2]
        exact hn
      · simp only [checkRefs] at h
        rcases hts : typeCheckSymbol fuel st x with ⟨res, st1⟩
        rw [hts] at h
        have hn1 : NoNoneBody st1.typed := ih.1 st x res st1 hts hn
        rcases res with e | v
        · simp only [Prod.mk.injEq] at h
          rw [← h.2]
          exact hn1
        · simp only [] at h
          exact ih.2 st1 rest r st' h hn1

end Gerac.Check

namespace Gerac.Check

/-- C6 counterexample: the symbol published before a procedure's body is
checked carries `body = Some(Vec::new())`, not `body = none` as the
spec claims; the two markers are distinct values. -/
theorem claim_C6_counterexample :
    alookup (publishProcedure [] 0) 0 = some (.procedure (some [])) ∧
    TSym.procedure (some []) ≠ TSym.procedure none := by
  exact ⟨rfl, by decide⟩

/-- C6 (amended): the in-progress marker published while a procedure's
body is being checked is the `Procedure` symbol with
`body = Some(Vec::new())` (not `body = none`); after the body has been
checked successfully the entry is overwritten with the typed body; and
a typed table holding no `Procedure` symbol with `body = none` never
acquires one, so a `body = none` marker is never observed at all. -/
theorem claim_C6 :
    (∀ (typed : List (Nat × TSym)) (name : Nat),
      alookup (publishProcedure typed name) name =
        some (.procedure (some []))) ∧
    (∀ (fuel : Nat) (st : SymState) (name : Nat) (refs : List Nat)
      (st' : SymState),
      alookup st.untyped name = some (.procedure refs) →
      typeCheckSymbol (fuel + 1) st name = (.ok (), st') →
      alookup st'.typed name = some (.procedure (some refs))) ∧
    (∀ (fuel : Nat) (st : SymState) (name : Nat)
      (r : Except SymErr Unit) (st' : SymState),
      typeCheckSymbol fuel st name = (r, st') →
      NoNoneBody st.typed → NoNoneBody st'.typed) := by
  refine ⟨?_, ?_, ?_⟩
  · intro typed name
    exact alookup_aupdate_self typed name _
  · intro fuel st name refs st' hU h
    simp only [typeCheckSymbol] at h
    rw [hU] at h
    simp only [] at h
    rcases hck : checkRefs fuel
        ⟨aremove st.untyped name, publishProcedure st.typed name⟩ refs
      with ⟨res, st2⟩
    rw [hck] at h
    rcases res with e | v
    · simp only [finishSymbol] at h
      simp at h
    · simp only [finishSymbol] at h
      rw [if_pos (by rw [alookup_aupdate_self]; rfl)] at h
      simp only [Prod.mk.injEq] at h
      rw [← h.2]
      exact alookup_aupdate_self st2.typed name _
  · intro fuel st name r st' h hn
    exact (noNoneBody_preserved fuel).1 st name r st' h hn

/-- C6 witness: checking the untyped procedure `0` with an empty body
installs the typed symbol with `body = Some([])`. -/
theorem claim_C6_witness :
    alookup ([(0, TSym.procedure (some []))] : List (Nat × TSym)) 0 =
      some (.procedure (some [])) := by
  exact claim_C6.2.1 1 ⟨[(0, USym.procedure [])], []⟩ 0 []
    ⟨[], [(0, TSym.procedure (some []))]⟩ rfl (by rfl)

end Gerac.Check
